import Mathlib

/-!
Shallow embedding of the cordova-lib restore/removal core
(`src/cordova/restore-util.js`, `src/cordova/plugin/remove.js`, and the
platform `remove` flow), together with theorems settling the spec claims.

Conventions: JavaScript strings that may be `null`/`undefined` are
`Option String`; JS truthiness of such values (null and the empty string
are falsy) is `truthy`.  JS objects used as string-keyed maps are
association lists (`List (String × α)`); object-spread insertion
`{...m, [k]: v}` is `alistInsert` (updates an existing key in place,
otherwise appends).  Rejected promises are `Except` errors.
-/

set_option autoImplicit false

deriving instance DecidableEq for Except

namespace Cordova

/-- JS truthiness of a nullable string: `null`/`undefined` and `""` are falsy. -/
def truthy : Option String → Bool
  | none => false
  | some s => !(s == "")

/-- JS `a || b` where `a` is a nullable string and `b` a string. -/
def jsOrStr (a : Option String) (b : String) : String :=
  match a with
  | some s => if s == "" then b else s
  | none => b

/-- JS `a || b` on two nullable strings (empty string falls through). -/
def jsOrOpt (a b : Option String) : Option String :=
  match a with
  | some s => if s == "" then b else some s
  | none => b

/-- Lookup in a JS object modelled as an association list. -/
def alistLookup {α : Type} (m : List (String × α)) (k : String) : Option α :=
  match m.find? (fun p => p.1 == k) with
  | some p => some p.2
  | none => none

/-- JS `k in obj` membership test. -/
def alistMem {α : Type} (m : List (String × α)) (k : String) : Bool :=
  m.any (fun p => p.1 == k)

/-- JS object-spread insertion `{...m, [k]: v}`: an existing key keeps its
position and gets the new value, a new key is appended. -/
def alistInsert {α : Type} (m : List (String × α)) (k : String) (v : α) :
    List (String × α) :=
  if alistMem m k then m.map (fun p => if p.1 == k then (k, v) else p)
  else m ++ [(k, v)]

/-- The keys of a JS object, in insertion order (JS `Object.keys`). -/
def alistKeys {α : Type} (m : List (String × α)) : List String :=
  m.map (fun p => p.1)

/-! ## Data model of the two config stores (restore-util.js) -/

/-- String-to-string map (dependency specifiers, plugin vars). -/
abbrev SpecMap := List (String × String)

/-- The package manifest (`package.json`), as read by `loadPackageJson`:
front matter plus the dependency maps and the reserved `cordova` section. -/
structure PkgJson where
  name : Option String
  version : Option String
  displayName : Option String
  dependencies : SpecMap
  devDependencies : SpecMap
  cordovaPlatforms : List String
  cordovaPlugins : List (String × SpecMap)
deriving Repr, DecidableEq

/-- One `<engine>` element of `config.xml` (`cfg.getEngines()`). -/
structure Engine where
  name : String
  spec : Option String
deriving Repr, DecidableEq

/-- One `<plugin>` element of `config.xml` (`cfg.getPlugin(id)`). -/
structure CfgPlugin where
  id : String
  spec : Option String
  vars : SpecMap
deriving Repr, DecidableEq

/-- The project descriptor (`config.xml`) as exposed by `ConfigParser`:
`packageName()`, `version()`, `name()` (the display name), `getEngines()`
and the plugin elements. -/
structure ConfigXml where
  packageName : Option String
  version : Option String
  name : Option String
  engines : List Engine
  plugins : List CfgPlugin
deriving Repr, DecidableEq

/-- JS `Object.assign({}, pkg.dependencies, pkg.devDependencies)` lookup:
`devDependencies` wins over `dependencies`. -/
def specsLookup (pkg : PkgJson) (k : String) : Option String :=
  match alistLookup pkg.devDependencies k with
  | some v => some v
  | none => alistLookup pkg.dependencies k

/-- JS `k in Object.assign({}, pkg.dependencies, pkg.devDependencies)`. -/
def specsMem (pkg : PkgJson) (k : String) : Bool :=
  alistMem pkg.dependencies k || alistMem pkg.devDependencies k

/-! ## Platform restore (installPlatformsFromConfigXML, lines 43-97) -/

/-- Lines 43-53: build `configToPkgJson` from the descriptor's front matter
(package name lowercased) and overlay it onto the manifest via
`pkgJson.update`. Each key is set whenever the descriptor value is truthy,
regardless of the current manifest value. -/
def applyConfigToPkgJson (cfg : ConfigXml) (pkg : PkgJson) : PkgJson :=
  let pkg1 := if truthy cfg.packageName then
      { pkg with name := some ((jsOrStr cfg.packageName "").toLower) }
    else pkg
  let pkg2 := if truthy cfg.version then { pkg1 with version := cfg.version } else pkg1
  if truthy cfg.name then { pkg2 with displayName := cfg.name } else pkg2

/-- Line 62: `engine.name.startsWith('cordova-') ? engine.name : 'cordova-' + engine.name`. -/
def platformModuleOf (name : String) : String :=
  if name.startsWith "cordova-" then name else "cordova-" ++ name

/-- Lines 61-89: the body of the `cfgPlatforms.forEach` migration loop.
`pkgPlatforms0` and `pkg0specsMem` are the snapshots of the manifest's
platform list and merged specifier map taken before the loop (lines 55-56);
the membership tests use the snapshots while the updates apply to the
current manifest. -/
def migrateEngine (pkgPlatforms0 : List String) (pkg0specsMem : String → Bool)
    (pkg : PkgJson) (engine : Engine) : PkgJson :=
  let platformModule := platformModuleOf engine.name
  if !pkgPlatforms0.contains engine.name
      || (truthy engine.spec && !pkg0specsMem platformModule) then
    let pkg1 :=
      if truthy engine.spec && !pkg0specsMem platformModule then
        { pkg with devDependencies :=
            alistInsert pkg.devDependencies platformModule (jsOrStr engine.spec "") }
      else pkg
    if !pkgPlatforms0.contains engine.name then
      { pkg1 with cordovaPlatforms := pkg1.cordovaPlatforms ++ [engine.name] }
    else pkg1
  else pkg

/-- Result of the pure reconciliation phase of platform restore:
the migrated manifest, whether `pkgJson.save()` runs (lines 133-136), and
the `platformInfo` list fed to the serial fold (lines 92-97). -/
structure PlatformRestorePrep where
  pkg : PkgJson
  saved : Bool
  platformInfo : List Engine
deriving Repr, DecidableEq

/-- Lines 43-136 of `installPlatformsFromConfigXML`: front-matter overlay,
engine migration from `config.xml` into `package.json`, re-fetch of the
merged platform/spec list, and the save decision
(`platformIDs.length !== pkgPlatforms.length`). -/
def preparePlatformRestore (cfg : ConfigXml) (pkgIn : PkgJson) : PlatformRestorePrep :=
  let pkg0 := applyConfigToPkgJson cfg pkgIn
  let pkgPlatforms := pkg0.cordovaPlatforms
  let sMem := fun k => specsMem pkg0 k
  let pkg1 := cfg.engines.foldl (migrateEngine pkgPlatforms sMem) pkg0
  let platformIDs := pkg1.cordovaPlatforms
  let platformInfo := platformIDs.map (fun plID =>
    { name := plID
      spec := jsOrOpt (specsLookup pkg1 ("cordova-" ++ plID)) (specsLookup pkg1 plID) })
  { pkg := pkg1
    saved := platformIDs.length != pkgPlatforms.length
    platformInfo := platformInfo }

/-! ## Plugin restore (installPluginsFromConfigXML, lines 154-244) -/

/-- `cfg.getPlugin(plID)`: the first `<plugin>` element with that id.
The ids iterated over come from `getPluginIdList`, so the default branch is
never hit for those ids. -/
def getPluginCfg (cfg : ConfigXml) (plID : String) : CfgPlugin :=
  match cfg.plugins.find? (fun p => p.id == plID) with
  | some p => p
  | none => { id := plID, spec := none, vars := [] }

/-- Lines 162-191: body of the `cfgPluginIDs.forEach` migration loop.
`pkgPluginIDs0`/`pkg0specsMem` are the pre-loop snapshots (lines 155-156). -/
def migratePlugin (pkgPluginIDs0 : List String) (pkg0specsMem : String → Bool)
    (cfg : ConfigXml) (pkg : PkgJson) (plID : String) : PkgJson :=
  if !pkgPluginIDs0.contains plID then
    let cfgPlugin := getPluginCfg cfg plID
    let pkg1 :=
      if truthy cfgPlugin.spec && !pkg0specsMem plID then
        { pkg with devDependencies :=
            alistInsert pkg.devDependencies plID (jsOrStr cfgPlugin.spec "") }
      else pkg
    { pkg1 with cordovaPlugins :=
        alistInsert pkg1.cordovaPlugins plID cfgPlugin.vars }
  else pkg

/-- One element of the `plugins` list built on lines 196-200. -/
structure PluginInfoR where
  name : String
  spec : Option String
  vars : SpecMap
deriving Repr, DecidableEq

/-- Result of the pure reconciliation phase of plugin restore. -/
structure PluginRestorePrep where
  pkg : PkgJson
  saved : Bool
  plugins : List PluginInfoR
deriving Repr, DecidableEq

/-- Lines 154-244 of `installPluginsFromConfigXML`: plugin migration from
`config.xml` into `package.json`, re-fetch of the merged plugin list, and
the save decision (`pluginIDs.length !== pkgPluginIDs.length`). -/
def preparePluginRestore (cfg : ConfigXml) (pkg0 : PkgJson) : PluginRestorePrep :=
  let pkgPluginIDs := alistKeys pkg0.cordovaPlugins
  let sMem := fun k => specsMem pkg0 k
  let cfgPluginIDs := cfg.plugins.map (fun p => p.id)
  let pkg1 := cfgPluginIDs.foldl (migratePlugin pkgPluginIDs sMem cfg) pkg0
  let pluginIDs := alistKeys pkg1.cordovaPlugins
  let plugins := pluginIDs.map (fun plID =>
    { name := plID
      spec := specsLookup pkg1 plID
      vars := match alistLookup pkg1.cordovaPlugins plID with
        | some v => v
        | none => [] })
  { pkg := pkg1
    saved := pluginIDs.length != pkgPluginIDs.length
    plugins := plugins }

/-! ## Install-source synthesis and the serial restore fold -/

/-- Lines 111-118 (platforms) and 215-221 (plugins): synthesize the install
source from an item's name and specifier.  `validRange` stands for
`spec => semver.validRange(spec, true)` (loose-range rules); it is a total
boolean predicate because `semver.validRange` signals a non-range by
returning `null`, never by throwing. -/
def installFromOf (validRange : String → Bool) (name : String) (spec : Option String) :
    String :=
  let installFrom := jsOrStr spec name
  if truthy spec && validRange (jsOrStr spec "") then
    name ++ "@" ++ jsOrStr spec ""
  else installFrom

/-- Observable events of one restore run: an invocation of the external
install primitive (`platform('add', installFrom)` / `plugin('add',
installFrom, options)`), or a `warn` emission from an `errCallback`. -/
inductive REv where
  | invoked (name source : String)
  | warned (name err : String)
deriving Repr, DecidableEq

/-- Environment of a restore run: the filesystem probe (`fs.existsSync` on
the item's directory), the explicit platform target filter (lines 34 and
104), the semver range validator, and the result of the external install
primitive applied to the synthesized install source. -/
structure RestoreEnv where
  existsOnDisk : String → Bool
  installAllPlatforms : Bool
  targets : List String
  validRange : String → Bool
  primitive : String → Except String Unit

/-- State of the promise chain built by the `reduce` on lines 141-143 /
250-252: the mutable `platformName`/`pluginName` closure variable, the
events emitted so far, whether `process.exitCode = 1` has run, and the
settled state of the chain so far. -/
structure FoldSt where
  lastName : String
  trace : List REv
  exitCode1 : Bool
  cur : Except String Unit
deriving Repr, DecidableEq

/-- Lines 100-122: `restoreCallback` of platform restore.  Sets the shared
`platformName`, resolves without invoking the primitive when the platform
directory exists or an explicit target list excludes the platform, and
otherwise invokes `platform('add', installFrom)`. -/
def restoreCallbackPlatform (env : RestoreEnv) (s : FoldSt) (platform : Engine) :
    FoldSt :=
  let s1 := { s with lastName := platform.name }
  if env.existsOnDisk platform.name
      || (!env.installAllPlatforms && !env.targets.contains platform.name) then
    { s1 with cur := .ok () }
  else
    let installFrom := installFromOf env.validRange platform.name platform.spec
    { s1 with trace := s1.trace ++ [.invoked platform.name installFrom]
              cur := env.primitive installFrom }

/-- Lines 204-232: `restoreCallback` of plugin restore (no target filter). -/
def restoreCallbackPlugin (env : RestoreEnv) (s : FoldSt) (pluginConfig : PluginInfoR) :
    FoldSt :=
  let s1 := { s with lastName := pluginConfig.name }
  if env.existsOnDisk pluginConfig.name then
    { s1 with cur := .ok () }
  else
    let installFrom := installFromOf env.validRange pluginConfig.name pluginConfig.spec
    { s1 with trace := s1.trace ++ [.invoked pluginConfig.name installFrom]
              cur := env.primitive installFrom }

/-- Lines 124-131: `errCallback` of platform restore.  Emits a warning
naming the last platform whose `restoreCallback` started, sets
`process.exitCode = 1`, and re-rejects (`return Promise.reject(error)`). -/
def errCallbackPlatform (s : FoldSt) (e : String) : FoldSt :=
  { s with trace := s.trace ++ [.warned s.lastName e]
           exitCode1 := true
           cur := .error e }

/-- Lines 234-239: `errCallback` of plugin restore.  Same warning and exit
code, but returns `undefined`, so the chain continues fulfilled. -/
def errCallbackPlugin (s : FoldSt) (e : String) : FoldSt :=
  { s with trace := s.trace ++ [.warned s.lastName e]
           exitCode1 := true
           cur := .ok () }

/-- One step of the platform `reduce` chain (line 142):
`soFar.then(() => restoreCallback(platform), errCallback)`.  When the chain
so far is rejected, the rejection handler runs instead of the item's
`restoreCallback`. -/
def stepPlatform (env : RestoreEnv) (s : FoldSt) (platform : Engine) : FoldSt :=
  match s.cur with
  | .ok _ => restoreCallbackPlatform env s platform
  | .error e => errCallbackPlatform s e

/-- One step of the plugin `reduce` chain (line 251). -/
def stepPlugin (env : RestoreEnv) (s : FoldSt) (plugin : PluginInfoR) : FoldSt :=
  match s.cur with
  | .ok _ => restoreCallbackPlugin env s plugin
  | .error e => errCallbackPlugin s e

/-- Initial state of a restore chain: `platformName = ''`, nothing emitted,
`Promise.resolve()`. -/
def foldInit : FoldSt := { lastName := "", trace := [], exitCode1 := false, cur := .ok () }

/-- Lines 141-143: `platformInfo.reduce(..., Promise.resolve())`. -/
def installPlatformsFold (env : RestoreEnv) (platformInfo : List Engine) : FoldSt :=
  platformInfo.foldl (stepPlatform env) foldInit

/-- Lines 250-252: `plugins.reduce(..., Promise.resolve())`. -/
def installPluginsFold (env : RestoreEnv) (plugins : List PluginInfoR) : FoldSt :=
  plugins.foldl (stepPlugin env) foldInit

/-- The whole of `installPlatformsFromConfigXML` over both stores: restore
never writes `config.xml` (the descriptor is only read), migrates into the
manifest, saves it when the platform-list length changed, and runs the
serial fold over the merged list.  Returns (descriptor after the run,
manifest after the run, whether the manifest was saved, final chain state). -/
def installPlatformsFromConfigXML (env : RestoreEnv) (cfg : ConfigXml) (pkg : PkgJson) :
    ConfigXml × PkgJson × Bool × FoldSt :=
  let prep := preparePlatformRestore cfg pkg
  (cfg, prep.pkg, prep.saved, installPlatformsFold env prep.platformInfo)

/-- The whole of `installPluginsFromConfigXML` over both stores. -/
def installPluginsFromConfigXML (env : RestoreEnv) (cfg : ConfigXml) (pkg : PkgJson) :
    ConfigXml × PkgJson × Bool × FoldSt :=
  let prep := preparePluginRestore cfg pkg
  (cfg, prep.pkg, prep.saved, installPluginsFold env prep.plugins)

/-! ## Plugin removal (src/cordova/plugin/remove.js) -/

/-- `isPreChars pat s`: `pat` is a leading segment of `s` (character lists). -/
def isPreChars : List Char → List Char → Bool
  | [], _ => true
  | _ :: _, [] => false
  | a :: as, b :: bs => a == b && isPreChars as bs

/-- `occursIn pat s`: JS `s.indexOf(pat) >= 0`, i.e. `pat` occurs as a
contiguous segment of `s`. -/
def occursIn (pat : List Char) : List Char → Bool
  | [] => isPreChars pat []
  | c :: rest => isPreChars pat (c :: rest) || occursIn pat rest

/-- The conventional plugin-name lead-in used by `validatePluginId`. -/
def cordovaPluginPre : String := "cordova-plugin-"

/-- Lines 153-161, with an explicit recursion budget: the JS function
returns the id when installed, recurses with `'cordova-plugin-' + pluginId`
when the id does not contain `'cordova-plugin-'` (`indexOf < 0`), and
otherwise implicitly returns `undefined`.  The recursive argument always
contains the lead-in, so the recursion depth is at most 2 and a budget of 2
computes the same function (see `validatePluginId_eq`). -/
def validatePluginIdFuel : Nat → String → List String → Option String
  | 0, _, _ => none
  | fuel + 1, pluginId, installedPlugins =>
    if installedPlugins.contains pluginId then some pluginId
    else if !occursIn cordovaPluginPre.toList pluginId.toList then
      validatePluginIdFuel fuel (cordovaPluginPre ++ pluginId) installedPlugins
    else none

/-- `validatePluginId(pluginId, installedPlugins)` from lines 153-161. -/
def validatePluginId (pluginId : String) (installedPlugins : List String) :
    Option String :=
  validatePluginIdFuel 2 pluginId installedPlugins

/-- The five stages of one plugin-removal target (the promise chain of
`removePlugin`, lines 62-90). -/
inductive Step where
  | validate
  | platformUninstall
  | pkgUninstall
  | persist
  | metadata
deriving Repr, DecidableEq

/-- Position of a stage in the `removePlugin` chain. -/
def stepIdx : Step → Nat
  | .validate => 0
  | .platformUninstall => 1
  | .pkgUninstall => 2
  | .persist => 3
  | .metadata => 4

/-- Observable events of plugin removal: invocations of
`plugman.uninstall.uninstallPlatform`, `plugman.uninstall.uninstallPlugin`,
`configXml.removePlugin` + `write`, the `package.json` plugin-map removal +
save, and `metadata.remove_fetch_metadata`. -/
inductive RmEv where
  | platformUninstalled (plugin platform : String)
  | pkgUninstalled (plugin : String)
  | cfgRemoved (plugin : String)
  | pkgJsonRemoved (plugin : String)
  | metadataRemoved (plugin : String)
deriving Repr, DecidableEq

/-- The stage an event belongs to. -/
def evStep : RmEv → Step
  | .platformUninstalled _ _ => .platformUninstall
  | .pkgUninstalled _ => .pkgUninstall
  | .cfgRemoved _ => .persist
  | .pkgJsonRemoved _ => .persist
  | .metadataRemoved _ => .metadata

/-- Environment of one plugin-removal invocation: the installed plugin ids
(`findPlugins`), the installed platforms (`listPlatforms`), the `--save`
flag, the plugin ids declared in `config.xml` and in `package.json`, and
the outcomes of the external primitives (platform-level uninstall returns
`didPrepare`; the persistence writes may throw). -/
structure RmEnv where
  installedPlugins : List String
  platformList : List String
  save : Bool
  cfgPlugins : List String
  pkgPlugins : List String
  platformUninstallResult : String → String → Except String Bool
  pkgUninstallResult : String → Except String Unit
  cfgWriteResult : String → Except String Unit
  pkgSaveResult : String → Except String Unit
  metadataResult : String → Except String Unit

/-- Outcome of one removal target: emitted events, the settled result
tagged with the stage whose promise rejected, and whether any
platform-level uninstall reported it did not itself prepare
(`shouldRunPrepare`). -/
structure RmRun where
  trace : List RmEv
  result : Except (Step × String) Unit
  requestPrepare : Bool
deriving Repr, DecidableEq

/-- Modelled from the spec: `Q_chainmap` (`src/util/promise-util.js`, not
part of this source slice) applied to the installed platforms on lines
75-77 — a strictly serial fold in which a rejection stops the remaining
iterations, per the seriality contract of section 4.6 and the per-target
abort rule of section 4.7.  The loop body is `removePluginFromPlatform`
(lines 92-116): invoke `uninstallPlatform` for each platform in order and
raise `shouldRunPrepare` whenever a platform reports a falsy
`didPrepare`. -/
def removePluginFromPlatformStep (env : RmEnv) (target : String)
    (acc : List RmEv × Except String Unit × Bool) (platform : String) :
    List RmEv × Except String Unit × Bool :=
  let (tr, res, req) := acc
  match res with
  | .error e => (tr, .error e, req)
  | .ok _ =>
    let tr1 := tr ++ [RmEv.platformUninstalled target platform]
    match env.platformUninstallResult target platform with
    | .ok didPrepare => (tr1, .ok (), req || !didPrepare)
    | .error e => (tr1, .error e, req)

/-- The serial per-platform uninstall chain of one target (lines 75-77). -/
def platformChain (env : RmEnv) (target : String) :
    List RmEv × Except String Unit × Bool :=
  env.platformList.foldl (removePluginFromPlatformStep env target) ([], .ok (), false)

/-- Lines 81-84 plus `persistRemovalToCfg` (118-129) and
`persistRemovalToPkg` (131-150): when `--save` is set, remove the plugin
element from `config.xml` (only when present; the write may throw) and then
the key from `package.json`'s plugin map (only when present; the save may
throw).  Without `--save` this is a no-op. -/
def persistStep (env : RmEnv) (target : String) : List RmEv × Except String Unit :=
  if env.save then
    let (trc, resc) :=
      if env.cfgPlugins.contains target then
        ([RmEv.cfgRemoved target], env.cfgWriteResult target)
      else ([], .ok ())
    match resc with
    | .error e => (trc, .error e)
    | .ok _ =>
      if env.pkgPlugins.contains target then
        (trc ++ [RmEv.pkgJsonRemoved target], env.pkgSaveResult target)
      else (trc, .ok ())
  else ([], .ok ())

/-- `removePlugin(target)`, lines 62-90: validate the id (at most one
lead-in retry), serially uninstall from every installed platform, run the
package-level uninstall, persist the removal when `--save` is set, and
drop the fetch-metadata entry.  A rejection at any stage skips the
remaining stages of this target; the result records the rejecting stage. -/
def removePlugin (env : RmEnv) (target0 : String) : RmRun :=
  match validatePluginId target0 env.installedPlugins with
  | none =>
    { trace := []
      result := .error (.validate, "Plugin " ++ target0 ++ " is not present in the project.")
      requestPrepare := false }
  | some target =>
    let (tr1, res1, req) := platformChain env target
    match res1 with
    | .error e => { trace := tr1, result := .error (.platformUninstall, e), requestPrepare := req }
    | .ok _ =>
      let tr2 := tr1 ++ [RmEv.pkgUninstalled target]
      match env.pkgUninstallResult target with
      | .error e => { trace := tr2, result := .error (.pkgUninstall, e), requestPrepare := req }
      | .ok _ =>
        match persistStep env target with
        | (tr3, .error e) =>
          { trace := tr2 ++ tr3, result := .error (.persist, e), requestPrepare := req }
        | (tr3, .ok _) =>
          let tr4 := tr2 ++ tr3 ++ [RmEv.metadataRemoved target]
          match env.metadataResult target with
          | .error e => { trace := tr4, result := .error (.metadata, e), requestPrepare := req }
          | .ok _ => { trace := tr4, result := .ok (), requestPrepare := req }

/-- Modelled from the spec: `Q_chainmap(opts.plugins, removePlugin)` on
line 50 — `Q_chainmap`'s source (`src/util/promise-util.js`) is not part of
this slice, and section 4.7 describes the targets as processed by a
serial fold with per-target isolation that records each target's outcome.
Each target yields its own `RmRun`; the `shouldRunPrepare` flag is threaded
through (it is only ever raised, never read, inside `removePlugin`). -/
def removeTargetsStep (env : RmEnv) (acc : List (String × RmRun) × Bool)
    (t : String) : List (String × RmRun) × Bool :=
  let (outs, flag) := acc
  let run := removePlugin env t
  (outs ++ [(t, run)], flag || run.requestPrepare)

/-- The fold over removal targets; see the comment above. -/
def removeTargets (env : RmEnv) (targets : List String) :
    List (String × RmRun) × Bool :=
  targets.foldl (removeTargetsStep env) ([], false)

/-! ## Lemmas about plugin removal -/

/-- Every step of the chain is one of the five stages. -/
theorem stepIdx_le_four (s : Step) : stepIdx s ≤ 4 := by
  cases s <;> simp [stepIdx]

/-- Every event the per-platform chain emits is a platform-level uninstall
of the target. -/
theorem platformChain_events (env : RmEnv) (target : String) :
    ∀ ev ∈ (platformChain env target).1,
      ∃ pf, ev = RmEv.platformUninstalled target pf := by
  unfold platformChain
  suffices h : ∀ (l : List String) (acc : List RmEv × Except String Unit × Bool),
      (∀ ev ∈ acc.1, ∃ pf, ev = RmEv.platformUninstalled target pf) →
      ∀ ev ∈ (l.foldl (removePluginFromPlatformStep env target) acc).1,
        ∃ pf, ev = RmEv.platformUninstalled target pf by
    exact h env.platformList ([], .ok (), false) (by simp)
  intro l
  induction l with
  | nil => intro acc hacc; simpa using hacc
  | cons pf rest ih =>
    intro acc hacc
    rw [List.foldl_cons]
    refine ih _ ?_
    obtain ⟨tr, res, req⟩ := acc
    cases res with
    | error e => simpa [removePluginFromPlatformStep] using hacc
    | ok _ =>
      cases hres : env.platformUninstallResult target pf with
      | ok b =>
        simp only [removePluginFromPlatformStep, hres]
        intro ev hev
        rcases List.mem_append.mp hev with h | h
        · exact hacc ev h
        · exact ⟨pf, by simpa using h⟩
      | error e =>
        simp only [removePluginFromPlatformStep, hres]
        intro ev hev
        rcases List.mem_append.mp hev with h | h
        · exact hacc ev h
        · exact ⟨pf, by simpa using h⟩

/-- When every platform-level uninstall of the target succeeds, the chain
invokes the primitive once per installed platform, in order, and settles
fulfilled. -/
theorem platformChain_ok (env : RmEnv) (target : String)
    (hall : ∀ pf ∈ env.platformList,
      ∃ b, env.platformUninstallResult target pf = .ok b) :
    (platformChain env target).1
        = env.platformList.map (RmEv.platformUninstalled target)
      ∧ (platformChain env target).2.1 = .ok () := by
  unfold platformChain
  suffices h : ∀ (l : List String) (tr : List RmEv) (req : Bool),
      (∀ pf ∈ l, ∃ b, env.platformUninstallResult target pf = .ok b) →
      ∃ req', l.foldl (removePluginFromPlatformStep env target) (tr, .ok (), req)
        = (tr ++ l.map (RmEv.platformUninstalled target), .ok (), req') by
    obtain ⟨req', heq⟩ := h env.platformList [] false hall
    rw [heq]
    simp
  intro l
  induction l with
  | nil => intro tr req _; exact ⟨req, by simp⟩
  | cons pf rest ih =>
    intro tr req hall'
    obtain ⟨b, hb⟩ := hall' pf (by simp)
    rw [List.foldl_cons]
    have hstep : removePluginFromPlatformStep env target (tr, .ok (), req) pf
        = (tr ++ [RmEv.platformUninstalled target pf], .ok (), req || !b) := by
      simp [removePluginFromPlatformStep, hb]
    rw [hstep]
    obtain ⟨req', heq⟩ := ih (tr ++ [RmEv.platformUninstalled target pf]) (req || !b)
      (fun p hp => hall' p (by simp [hp]))
    exact ⟨req', by rw [heq]; simp⟩

/-- Every event the persistence stage emits belongs to the persist stage
and names the target. -/
theorem persistStep_events (env : RmEnv) (target : String) :
    ∀ ev ∈ (persistStep env target).1,
      ev = RmEv.cfgRemoved target ∨ ev = RmEv.pkgJsonRemoved target := by
  unfold persistStep
  by_cases hsave : env.save
  case neg => simp [hsave]
  case pos =>
    by_cases hcfg : target ∈ env.cfgPlugins
    case neg =>
      by_cases hpkg : target ∈ env.pkgPlugins <;> simp [hsave, hcfg, hpkg]
    case pos =>
      cases hw : env.cfgWriteResult target with
      | error e => simp [hsave, hcfg, hw]
      | ok _ =>
        by_cases hpkg : target ∈ env.pkgPlugins <;> simp [hsave, hcfg, hw, hpkg]

/-- When a target's run rejects at stage `st`, every event emitted for the
target belongs to a stage no later than `st`: the remaining stages were
aborted, and the result records the rejecting stage. -/
theorem removePlugin_abort_bound (env : RmEnv) (t : String) (st : Step) (e : String)
    (hr : (removePlugin env t).result = .error (st, e)) :
    ∀ ev ∈ (removePlugin env t).trace, stepIdx (evStep ev) ≤ stepIdx st := by
  intro ev hev
  unfold removePlugin at hr hev
  cases hv : validatePluginId t env.installedPlugins with
  | none => rw [hv] at hev; simp at hev
  | some target =>
    rw [hv] at hr hev
    dsimp only at hr hev
    have hchain := platformChain_events env target
    rcases hpc : platformChain env target with ⟨tr1, res1, req⟩
    rw [hpc] at hr hev hchain
    dsimp only at hr hev hchain
    cases res1 with
    | error e1 =>
      simp only at hr hev
      obtain ⟨hst, he⟩ := by simpa using hr
      subst hst
      obtain ⟨pf, hpf⟩ := hchain ev (by simpa using hev)
      subst hpf
      simp [evStep, stepIdx]
    | ok _ =>
      cases hpu : env.pkgUninstallResult target with
      | error e2 =>
        rw [hpu] at hr hev
        simp only at hr hev
        obtain ⟨hst, he⟩ := by simpa using hr
        subst hst
        rcases List.mem_append.mp hev with h | h
        · obtain ⟨pf, hpf⟩ := hchain ev h
          subst hpf
          simp [evStep, stepIdx]
        · have : ev = RmEv.pkgUninstalled target := by simpa using h
          subst this
          simp [evStep, stepIdx]
      | ok _ =>
        rw [hpu] at hr hev
        have hpers := persistStep_events env target
        rcases hps : persistStep env target with ⟨tr3, res3⟩
        rw [hps] at hr hev hpers
        simp only at hr hev hpers
        cases res3 with
        | error e3 =>
          simp only at hr hev
          obtain ⟨hst, he⟩ := by simpa using hr
          subst hst
          rcases List.mem_append.mp hev with h12 | h3
          · rcases List.mem_append.mp h12 with h | h
            · obtain ⟨pf, hpf⟩ := hchain ev h
              subst hpf
              simp [evStep, stepIdx]
            · have : ev = RmEv.pkgUninstalled target := by simpa using h
              subst this
              simp [evStep, stepIdx]
          · rcases hpers ev h3 with h' | h' <;>
              (subst h'; simp [evStep, stepIdx])
        | ok _ =>
          cases hm : env.metadataResult target with
          | error e4 =>
            rw [hm] at hr hev
            simp only at hr hev
            obtain ⟨hst, he⟩ := by simpa using hr
            subst hst
            calc stepIdx (evStep ev) ≤ 4 := stepIdx_le_four _
              _ = stepIdx Step.metadata := rfl
          | ok _ =>
            rw [hm] at hr
            simp at hr

/-! ## Claim C2 -/

/-- C2: every removal target in an invocation is processed exactly once, in
order, with an outcome computed independently of the other targets'
outcomes (the fold only accumulates; a target's failure does not change any
other target's run); and when a target's run rejects, the result records
the rejecting stage and no event of any later stage was emitted for that
target (its remaining steps were aborted).  `Q_chainmap` itself is not in
this source slice and is modelled per the spec's fold-with-isolation. -/
theorem c2_per_target_isolation :
    (∀ (env : RmEnv) (targets : List String),
      (removeTargets env targets).1
        = targets.map (fun t => (t, removePlugin env t)))
  ∧ (∀ (env : RmEnv) (t : String) (st : Step) (e : String),
      (removePlugin env t).result = .error (st, e) →
      ∀ ev ∈ (removePlugin env t).trace, stepIdx (evStep ev) ≤ stepIdx st) := by
  constructor
  · intro env targets
    unfold removeTargets
    suffices h : ∀ (l : List String) (outs : List (String × RmRun)) (flag : Bool),
        (l.foldl (removeTargetsStep env) (outs, flag)).1
          = outs ++ l.map (fun t => (t, removePlugin env t)) by
      simpa using h targets [] false
    intro l
    induction l with
    | nil => intro outs flag; simp
    | cons t rest ih =>
      intro outs flag
      rw [List.foldl_cons]
      have hstep : removeTargetsStep env (outs, flag) t
          = (outs ++ [(t, removePlugin env t)],
             flag || (removePlugin env t).requestPrepare) := rfl
      rw [hstep, ih]
      simp
  · intro env t st e hr ev hev
    exact removePlugin_abort_bound env t st e hr ev hev

/-- Witness for C2: three targets where the middle one rejects at the
package-level uninstall; all three are processed and the failing target's
events stay at or before the rejecting stage. -/
theorem c2_per_target_isolation_witness :
    (removeTargets
        { installedPlugins := ["cordova-plugin-a", "cordova-plugin-b"]
          platformList := ["android"], save := false
          cfgPlugins := [], pkgPlugins := []
          platformUninstallResult := fun _ _ => .ok true
          pkgUninstallResult := fun p => if p == "cordova-plugin-a" then .error "U" else .ok ()
          cfgWriteResult := fun _ => .ok (), pkgSaveResult := fun _ => .ok ()
          metadataResult := fun _ => .ok () } ["a", "b"]).1
      = ["a", "b"].map (fun t => (t,
          removePlugin
            { installedPlugins := ["cordova-plugin-a", "cordova-plugin-b"]
              platformList := ["android"], save := false
              cfgPlugins := [], pkgPlugins := []
              platformUninstallResult := fun _ _ => .ok true
              pkgUninstallResult := fun p => if p == "cordova-plugin-a" then .error "U" else .ok ()
              cfgWriteResult := fun _ => .ok (), pkgSaveResult := fun _ => .ok ()
              metadataResult := fun _ => .ok () } t))
  ∧ ∀ ev ∈ (removePlugin
        { installedPlugins := ["cordova-plugin-a", "cordova-plugin-b"]
          platformList := ["android"], save := false
          cfgPlugins := [], pkgPlugins := []
          platformUninstallResult := fun _ _ => .ok true
          pkgUninstallResult := fun p => if p == "cordova-plugin-a" then .error "U" else .ok ()
          cfgWriteResult := fun _ => .ok (), pkgSaveResult := fun _ => .ok ()
          metadataResult := fun _ => .ok () } "a").trace,
      stepIdx (evStep ev) ≤ stepIdx Step.pkgUninstall :=
  ⟨c2_per_target_isolation.1 _ ["a", "b"],
   c2_per_target_isolation.2 _ "a" Step.pkgUninstall "U" (by decide)⟩

/-! ## Claim C8 -/

/-- C8 counterexample: target resolving to an installed plugin on a project
with two installed platforms, where the first platform-level uninstall
fails.  The claim requires one invocation per installed platform and a
subsequent package-level uninstall; actually only the first platform is
invoked and the package-level uninstall never runs. -/
theorem c8_counterexample :
    (removePlugin
        { installedPlugins := ["cordova-plugin-foo"]
          platformList := ["android", "ios"], save := false
          cfgPlugins := [], pkgPlugins := []
          platformUninstallResult := fun _ pf =>
            if pf == "android" then .error "pboom" else .ok true
          pkgUninstallResult := fun _ => .ok ()
          cfgWriteResult := fun _ => .ok (), pkgSaveResult := fun _ => .ok ()
          metadataResult := fun _ => .ok () } "foo").trace
      = [RmEv.platformUninstalled "cordova-plugin-foo" "android"]
  ∧ validatePluginId "foo" ["cordova-plugin-foo"] = some "cordova-plugin-foo" := by
  decide

/-- C8 amended: an unresolvable target fails validation with no primitive
invocation at all; a resolved target has the per-platform uninstall invoked
once per installed platform, in order, all before the single package-level
uninstall — provided each platform-level uninstall succeeds; a
platform-level failure stops further per-target events at that stage, so
the package-level uninstall is not invoked. -/
theorem c8_removal_order (env : RmEnv) (target : String) :
    (validatePluginId target env.installedPlugins = none →
      (removePlugin env target).trace = [])
  ∧ (∀ t, validatePluginId target env.installedPlugins = some t →
      (∀ pf ∈ env.platformList, ∃ b, env.platformUninstallResult t pf = .ok b) →
      ∃ rest, (removePlugin env target).trace
          = env.platformList.map (RmEv.platformUninstalled t)
            ++ [RmEv.pkgUninstalled t] ++ rest
        ∧ ∀ ev ∈ rest, evStep ev = Step.persist ∨ evStep ev = Step.metadata)
  ∧ (∀ e, (removePlugin env target).result = .error (Step.platformUninstall, e) →
      ∀ ev ∈ (removePlugin env target).trace, evStep ev = Step.platformUninstall) := by
  refine ⟨?_, ?_, ?_⟩
  · intro hv
    unfold removePlugin
    rw [hv]
  · intro t hv hall
    unfold removePlugin
    rw [hv]
    dsimp only
    obtain ⟨hc1, hc2⟩ := platformChain_ok env t hall
    have hpers := persistStep_events env t
    rcases hpc : platformChain env t with ⟨tr1, res1, req⟩
    rw [hpc] at hc1 hc2
    dsimp only at hc1 hc2
    subst hc1
    subst hc2
    dsimp only
    cases hpu : env.pkgUninstallResult t with
    | error e2 =>
      exact ⟨[], by simp⟩
    | ok _ =>
      rcases hps : persistStep env t with ⟨tr3, res3⟩
      rw [hps] at hpers
      dsimp only at hpers
      cases res3 with
      | error e3 =>
        refine ⟨tr3, by simp, ?_⟩
        intro ev hev
        rcases hpers ev hev with h | h <;> (subst h; simp [evStep])
      | ok _ =>
        cases hm : env.metadataResult t with
        | error e4 =>
          refine ⟨tr3 ++ [RmEv.metadataRemoved t], by simp, ?_⟩
          intro ev hev
          rcases List.mem_append.mp hev with h | h
          · rcases hpers ev h with h' | h' <;> (subst h'; simp [evStep])
          · have : ev = RmEv.metadataRemoved t := by simpa using h
            subst this
            simp [evStep]
        | ok _ =>
          refine ⟨tr3 ++ [RmEv.metadataRemoved t], by simp, ?_⟩
          intro ev hev
          rcases List.mem_append.mp hev with h | h
          · rcases hpers ev h with h' | h' <;> (subst h'; simp [evStep])
          · have : ev = RmEv.metadataRemoved t := by simpa using h
            subst this
            simp [evStep]
  · intro e hr ev hev
    have hb := removePlugin_abort_bound env target Step.platformUninstall e hr ev hev
    cases ev <;> simp [evStep, stepIdx] at hb ⊢

/-- Witness for C8: an unresolvable target emits nothing; a resolvable one
uninstalls from both platforms before the package-level uninstall; and the
platform-failure case from the counterexample stops at that stage. -/
theorem c8_removal_order_witness :
    (removePlugin
        { installedPlugins := ["cordova-plugin-foo"]
          platformList := ["android", "ios"], save := false
          cfgPlugins := [], pkgPlugins := []
          platformUninstallResult := fun _ _ => .ok true
          pkgUninstallResult := fun _ => .ok ()
          cfgWriteResult := fun _ => .ok (), pkgSaveResult := fun _ => .ok ()
          metadataResult := fun _ => .ok () } "nope").trace = []
  ∧ ∃ rest, (removePlugin
        { installedPlugins := ["cordova-plugin-foo"]
          platformList := ["android", "ios"], save := false
          cfgPlugins := [], pkgPlugins := []
          platformUninstallResult := fun _ _ => .ok true
          pkgUninstallResult := fun _ => .ok ()
          cfgWriteResult := fun _ => .ok (), pkgSaveResult := fun _ => .ok ()
          metadataResult := fun _ => .ok () } "foo").trace
      = ["android", "ios"].map (RmEv.platformUninstalled "cordova-plugin-foo")
        ++ [RmEv.pkgUninstalled "cordova-plugin-foo"] ++ rest
      ∧ ∀ ev ∈ rest, evStep ev = Step.persist ∨ evStep ev = Step.metadata :=
  ⟨(c8_removal_order _ "nope").1 (by decide),
   (c8_removal_order _ "foo").2.1 "cordova-plugin-foo" (by decide) (by decide)⟩

/-! ## Platform removal (the two `platform remove` sources in src/unnamed/part_000) -/

/-- JS `target.split('@')[0]`: the characters before the first `'@'`
(the whole string when there is none). -/
def splitAtName (t : String) : String :=
  String.mk (t.toList.takeWhile (fun c => c != '@'))

/-- Environment of one platform-removal invocation: the keys of the
`platforms` map (known platform names) and the `--save` flag. -/
structure PlatformRmEnv where
  knownPlatforms : List String
  save : Bool

/-- The store state platform removal mutates: the engine names currently in
`config.xml` (re-parsed from disk before each engine removal), and the
platform list of `package.json`. -/
structure PlatformRmState where
  cfgEngines : List String
  pkgPlatforms : List String
deriving Repr, DecidableEq

/-- Observable events of platform removal: the recursive directory delete
under `platforms/`, `removePlatformPluginsJson`, `cfg.removeEngine` +
`write`, the `package.json` platform-list update, its save, and the
`cordova-fetch` `npmUninstall` invocation. -/
inductive PEv where
  | rmDir (dir : String)
  | rmPluginsJson (t : String)
  | removedEngine (n : String)
  | pkgPlatformsSet (l : List String)
  | pkgSaved
  | npmUninstalled (t : String)
deriving Repr, DecidableEq

/-- Lines 47-68 of the first source (one iteration of the `--save` loop):
strip the version suffix, remove the engine from `config.xml` when present,
and filter the name out of `package.json`'s platform list when present,
raising `hasUpdatedPackage`. -/
def removeSaveStepV1 (acc : PlatformRmState × Bool × List PEv) (target : String) :
    PlatformRmState × Bool × List PEv :=
  let (s, hasUpdatedPackage, tr) := acc
  let platformName := splitAtName target
  let (cfgE, tr1) :=
    if s.cfgEngines.contains platformName then
      (s.cfgEngines.filter (fun n => n != platformName),
       tr ++ [PEv.removedEngine platformName])
    else (s.cfgEngines, tr)
  if s.pkgPlatforms.contains platformName then
    let updated := s.pkgPlatforms.filter (fun p => p != platformName)
    ({ cfgEngines := cfgE, pkgPlatforms := updated }, true,
     tr1 ++ [PEv.pkgPlatformsSet updated])
  else
    ({ cfgEngines := cfgE, pkgPlatforms := s.pkgPlatforms }, hasUpdatedPackage, tr1)

/-- Line 38-39 / 128-129: per-target on-disk deletion phase (identical in
both sources): `fs.rmSync(path.join(projectRoot, 'platforms', target))` and
`removePlatformPluginsJson(projectRoot, target)`, both on the raw target. -/
def rmDirPhase (targets : List String) (tr : List PEv) : List PEv :=
  targets.foldl (fun tr t => tr ++ [PEv.rmDir t, PEv.rmPluginsJson t]) tr

/-- Lines 80-87 / 167-174 (identical in both sources): the `npmUninstall`
chain over the raw targets, prepending `'cordova-'` only when the raw
target itself is a key of the `platforms` map. -/
def npmUninstallPhase (env : PlatformRmEnv) (targets : List String) (tr : List PEv) :
    List PEv :=
  targets.foldl
    (fun tr target =>
      let target1 := if env.knownPlatforms.contains target then "cordova-" ++ target
        else target
      tr ++ [PEv.npmUninstalled target1])
    tr

/-- `remove(hooksRunner, projectRoot, targets, opts)` from the first source
in part_000 (lines 31-91): reject when no targets are given; delete the
on-disk directories; when `--save` is set, per target remove the stripped
name from `config.xml` and `package.json`, saving the manifest once if it
changed; finally run the `npmUninstall` chain on the raw targets. -/
def platformRemoveV1 (env : PlatformRmEnv) (s0 : PlatformRmState)
    (targets : List String) : Except String (PlatformRmState × List PEv) :=
  if targets.isEmpty then .error "No platform(s) specified." else
  let tr := rmDirPhase targets []
  let (s1, hasUpdated, tr) :=
    if env.save then targets.foldl removeSaveStepV1 (s0, false, tr)
    else (s0, false, tr)
  let tr := if env.save && hasUpdated then tr ++ [PEv.pkgSaved] else tr
  let tr := npmUninstallPhase env targets tr
  .ok (s1, tr)

/-- Lines 151-159 of the second source: the engine-removal loop over the
stripped names. -/
def removeEnginesV2 (acc : List String × List PEv) (platformName : String) :
    List String × List PEv :=
  let (cfgE, tr) := acc
  if cfgE.contains platformName then
    (cfgE.filter (fun n => n != platformName), tr ++ [PEv.removedEngine platformName])
  else (cfgE, tr)

/-- `remove` from the second source in part_000 (lines 121-178): same
phases, but under `--save` the manifest platform list is filtered by all
stripped names at once and saved unconditionally, and the engines are
removed afterwards. -/
def platformRemoveV2 (env : PlatformRmEnv) (s0 : PlatformRmState)
    (targets : List String) : Except String (PlatformRmState × List PEv) :=
  if targets.isEmpty then .error "No platform(s) specified." else
  let tr := rmDirPhase targets []
  let (s1, tr) :=
    if env.save then
      let platformNames := targets.map splitAtName
      let updatedPlatforms := s0.pkgPlatforms.filter
        (fun p => !platformNames.contains p)
      let tr := tr ++ [PEv.pkgPlatformsSet updatedPlatforms, PEv.pkgSaved]
      let (cfgE, tr) := platformNames.foldl removeEnginesV2 (s0.cfgEngines, tr)
      ({ cfgEngines := cfgE, pkgPlatforms := updatedPlatforms }, tr)
    else (s0, tr)
  let tr := npmUninstallPhase env targets tr
  .ok (s1, tr)

/-! ## Basic lemmas -/

theorem contains_iff_mem {l : List String} {a : String} :
    l.contains a = true ↔ a ∈ l := by
  simp [List.contains, List.elem_eq_mem]

theorem isPreChars_self_append (l r : List Char) : isPreChars l (l ++ r) = true := by
  induction l with
  | nil => simp [isPreChars]
  | cons a as ih => simp [isPreChars, ih]

theorem occursIn_self_append (pat r : List Char) : occursIn pat (pat ++ r) = true := by
  cases pat with
  | nil => cases r <;> simp [occursIn, isPreChars]
  | cons a as => simp [occursIn, isPreChars, isPreChars_self_append]

theorem string_toList_append (a b : String) : (a ++ b).toList = a.toList ++ b.toList := by
  simp [String.toList]

/-! ## Claim C6 -/

/-- C6: for every declared item scheduled for install, a specifier that the
range validator accepts yields install source `name@specifier`; a non-empty
specifier the validator rejects is used verbatim; an absent specifier
yields the bare item name.  `installFromOf` is the synthesis performed by
both `restoreCallback`s (restore-util.js lines 111-118 and 215-221); the
validator is an arbitrary total predicate, reflecting that
`semver.validRange` reports failure by returning `null`, never by
throwing. -/
theorem c6_install_source (validRange : String → Bool) (name : String) :
    (∀ s : String, s ≠ "" → validRange s = true →
      installFromOf validRange name (some s) = name ++ "@" ++ s)
  ∧ (∀ s : String, s ≠ "" → validRange s = false →
      installFromOf validRange name (some s) = s)
  ∧ installFromOf validRange name none = name := by
  refine ⟨?_, ?_, ?_⟩
  · intro s hs hr
    simp [installFromOf, truthy, jsOrStr, hs, hr]
  · intro s hs hr
    simp [installFromOf, truthy, jsOrStr, hs, hr]
  · simp [installFromOf, truthy, jsOrStr]

/-- Witness for C6 at concrete inputs: a valid range, a git URL, and an
absent specifier. -/
theorem c6_install_source_witness :
    installFromOf (fun s => s == "^7.0.0") "ios" (some "^7.0.0") = "ios@^7.0.0"
  ∧ installFromOf (fun s => s == "^7.0.0") "ios" (some "https://x/y.git") = "https://x/y.git"
  ∧ installFromOf (fun s => s == "^7.0.0") "ios" none = "ios" :=
  ⟨(c6_install_source (fun s => s == "^7.0.0") "ios").1 "^7.0.0" (by decide) (by decide),
   (c6_install_source (fun s => s == "^7.0.0") "ios").2.1 "https://x/y.git" (by decide) (by decide),
   (c6_install_source (fun s => s == "^7.0.0") "ios").2.2⟩

/-! ## Claim C5 -/

/-- C5 counterexample: descriptor version `1.0.0`, manifest version `2.0.0`
(non-blank).  The claim says the non-blank manifest value is left
unchanged; the front-matter overlay of platform restore (lines 43-53)
overwrites it. -/
theorem c5_counterexample :
    (applyConfigToPkgJson
        { packageName := none, version := some "1.0.0", name := none,
          engines := [], plugins := [] }
        { name := none, version := some "2.0.0", displayName := none,
          dependencies := [], devDependencies := [],
          cordovaPlatforms := [], cordovaPlugins := [] }).version
      ≠ some "2.0.0" := by decide

/-- C5 amended: each front-matter field that is truthy in the descriptor is
copied into the manifest unconditionally (package name lowercased),
overwriting whatever the manifest held; a field that is absent or blank in
the descriptor leaves the manifest field unchanged; no other manifest field
is touched. -/
theorem c5_front_matter (cfg : ConfigXml) (pkg : PkgJson) :
    (applyConfigToPkgJson cfg pkg).name
      = (if truthy cfg.packageName then some ((jsOrStr cfg.packageName "").toLower)
         else pkg.name)
  ∧ (applyConfigToPkgJson cfg pkg).version
      = (if truthy cfg.version then cfg.version else pkg.version)
  ∧ (applyConfigToPkgJson cfg pkg).displayName
      = (if truthy cfg.name then cfg.name else pkg.displayName)
  ∧ (applyConfigToPkgJson cfg pkg).dependencies = pkg.dependencies
  ∧ (applyConfigToPkgJson cfg pkg).devDependencies = pkg.devDependencies
  ∧ (applyConfigToPkgJson cfg pkg).cordovaPlatforms = pkg.cordovaPlatforms
  ∧ (applyConfigToPkgJson cfg pkg).cordovaPlugins = pkg.cordovaPlugins := by
  cases h1 : truthy cfg.packageName <;> cases h2 : truthy cfg.version <;>
    cases h3 : truthy cfg.name <;>
      simp [applyConfigToPkgJson, h1, h2, h3]

/-! ## Claim C7 -/

/-- C7 counterexample: the target `"cordova-plugin-a"` is not installed,
while the once-prefixed id `"cordova-plugin-cordova-plugin-a"` is.  The
claim says a non-member target retries with the lead-in prepended once and
returns the prefixed id when that is installed; the source skips the retry
for any target already containing `'cordova-plugin-'` (`indexOf` check,
line 158) and yields no match. -/
theorem c7_counterexample :
    validatePluginId "cordova-plugin-a" ["cordova-plugin-cordova-plugin-a"] = none
  ∧ List.contains ["cordova-plugin-cordova-plugin-a"]
      (cordovaPluginPre ++ "cordova-plugin-a") = true := by decide

/-- C7 amended: `validatePluginId` returns the target unchanged when it is
an installed id; otherwise, only when the target does not already contain
`'cordova-plugin-'` as a substring, it retries exactly once with the
lead-in prepended, returning the prefixed id when that is installed; every
other case yields no match.  The spec's scenario (`"foo"` with only
`"cordova-plugin-foo"` installed) resolves via the single retry. -/
theorem c7_validate_plugin_id :
    (∀ (pluginId : String) (installedPlugins : List String),
      validatePluginId pluginId installedPlugins =
        (if installedPlugins.contains pluginId then some pluginId
         else if occursIn cordovaPluginPre.toList pluginId.toList then none
         else if installedPlugins.contains (cordovaPluginPre ++ pluginId) then
           some (cordovaPluginPre ++ pluginId)
         else none))
  ∧ validatePluginId "foo" ["cordova-plugin-foo"] = some "cordova-plugin-foo" := by
  constructor
  · intro pluginId installedPlugins
    have hocc : occursIn cordovaPluginPre.toList (cordovaPluginPre ++ pluginId).toList
        = true := by
      rw [string_toList_append]; exact occursIn_self_append _ _
    have hocc' : occursIn cordovaPluginPre.data (cordovaPluginPre ++ pluginId).data
        = true := hocc
    by_cases h1 : pluginId ∈ installedPlugins
    · simp [validatePluginId, validatePluginIdFuel, h1]
    · cases h2 : occursIn cordovaPluginPre.data pluginId.data <;>
        simp [validatePluginId, validatePluginIdFuel, h1, h2, hocc']
  · decide

/-! ## Lemmas about the serial restore fold -/

/-- The skip test of platform restore (line 104), negated: the platform is
scheduled for install iff its directory is absent and it is not excluded by
an explicit target list. -/
def shouldInstallPlatform (env : RestoreEnv) (p : Engine) : Bool :=
  !(env.existsOnDisk p.name || (!env.installAllPlatforms && !env.targets.contains p.name))

/-- The skip test of plugin restore (line 208), negated. -/
def shouldInstallPlugin (env : RestoreEnv) (p : PluginInfoR) : Bool :=
  !env.existsOnDisk p.name

/-- The install source a platform item is installed from. -/
def sourceOfPlatform (env : RestoreEnv) (p : Engine) : String :=
  installFromOf env.validRange p.name p.spec

/-- The install source a plugin item is installed from. -/
def sourceOfPlugin (env : RestoreEnv) (p : PluginInfoR) : String :=
  installFromOf env.validRange p.name p.spec

/-- Scheduling a platform for install means its skip test is false. -/
theorem skipCond_of_shouldInstallPlatform {env : RestoreEnv} {p : Engine}
    (h : shouldInstallPlatform env p = true) :
    (env.existsOnDisk p.name
      || (!env.installAllPlatforms && !env.targets.contains p.name)) = false := by
  unfold shouldInstallPlatform at h
  exact (Bool.not_eq_true' _) ▸ h

/-- Scheduling a plugin for install means its directory is absent. -/
theorem skipCond_of_shouldInstallPlugin {env : RestoreEnv} {p : PluginInfoR}
    (h : shouldInstallPlugin env p = true) :
    env.existsOnDisk p.name = false := by
  unfold shouldInstallPlugin at h
  exact (Bool.not_eq_true' _) ▸ h

/-- A fulfilled chain over items whose scheduled installs all succeed: the
primitive is invoked exactly for the items passing the skip test, in order,
and the chain stays fulfilled with the exit code untouched. -/
theorem foldl_stepPlatform_ok (env : RestoreEnv) (items : List Engine)
    (ln : String) (tr : List REv) (ex : Bool)
    (hprim : ∀ p ∈ items, shouldInstallPlatform env p = true →
      env.primitive (sourceOfPlatform env p) = .ok ()) :
    items.foldl (stepPlatform env) ⟨ln, tr, ex, .ok ()⟩ =
      ⟨items.foldl (fun _ p => p.name) ln,
       tr ++ (items.filter (shouldInstallPlatform env)).map
         (fun p => REv.invoked p.name (sourceOfPlatform env p)),
       ex, .ok ()⟩ := by
  induction items generalizing ln tr with
  | nil => simp
  | cons it rest ih =>
    rw [List.foldl_cons]
    cases hc : (env.existsOnDisk it.name
        || (!env.installAllPlatforms && !env.targets.contains it.name)) with
    | true =>
      have hsch : shouldInstallPlatform env it = false := by
        unfold shouldInstallPlatform; rw [hc]; rfl
      have hstep : stepPlatform env ⟨ln, tr, ex, .ok ()⟩ it
          = ⟨it.name, tr, ex, .ok ()⟩ := by
        unfold stepPlatform restoreCallbackPlatform
        rw [hc]
        simp
      rw [hstep, ih it.name tr (fun p hp hs => hprim p (by simp [hp]) hs)]
      simp [hsch]
    | false =>
      have hsch : shouldInstallPlatform env it = true := by
        unfold shouldInstallPlatform; rw [hc]; rfl
      have hok := hprim it (by simp) hsch
      have hstep : stepPlatform env ⟨ln, tr, ex, .ok ()⟩ it
          = ⟨it.name, tr ++ [REv.invoked it.name (sourceOfPlatform env it)],
             ex, .ok ()⟩ := by
        unfold stepPlatform restoreCallbackPlatform
        rw [hc]
        unfold sourceOfPlatform at hok ⊢
        simp [hok]
      rw [hstep, ih it.name _ (fun p hp hs => hprim p (by simp [hp]) hs)]
      simp [hsch]

/-- Counterpart of `foldl_stepPlatform_ok` for the plugin chain. -/
theorem foldl_stepPlugin_ok (env : RestoreEnv) (items : List PluginInfoR)
    (ln : String) (tr : List REv) (ex : Bool)
    (hprim : ∀ p ∈ items, shouldInstallPlugin env p = true →
      env.primitive (sourceOfPlugin env p) = .ok ()) :
    items.foldl (stepPlugin env) ⟨ln, tr, ex, .ok ()⟩ =
      ⟨items.foldl (fun _ p => p.name) ln,
       tr ++ (items.filter (shouldInstallPlugin env)).map
         (fun p => REv.invoked p.name (sourceOfPlugin env p)),
       ex, .ok ()⟩ := by
  induction items generalizing ln tr with
  | nil => simp
  | cons it rest ih =>
    rw [List.foldl_cons]
    cases hc : env.existsOnDisk it.name with
    | true =>
      have hsch : shouldInstallPlugin env it = false := by
        unfold shouldInstallPlugin; rw [hc]; rfl
      have hstep : stepPlugin env ⟨ln, tr, ex, .ok ()⟩ it
          = ⟨it.name, tr, ex, .ok ()⟩ := by
        unfold stepPlugin restoreCallbackPlugin
        rw [hc]
        simp
      rw [hstep, ih it.name tr (fun p hp hs => hprim p (by simp [hp]) hs)]
      simp [hsch]
    | false =>
      have hsch : shouldInstallPlugin env it = true := by
        unfold shouldInstallPlugin; rw [hc]; rfl
      have hok := hprim it (by simp) hsch
      have hstep : stepPlugin env ⟨ln, tr, ex, .ok ()⟩ it
          = ⟨it.name, tr ++ [REv.invoked it.name (sourceOfPlugin env it)],
             ex, .ok ()⟩ := by
        unfold stepPlugin restoreCallbackPlugin
        rw [hc]
        unfold sourceOfPlugin at hok ⊢
        simp [hok]
      rw [hstep, ih it.name _ (fun p hp hs => hprim p (by simp [hp]) hs)]
      simp [hsch]

/-- Once the platform chain is rejected, every remaining position runs
`errCallback` only: one duplicate warning per remaining item, the rejection
re-propagates, and no further `restoreCallback` runs. -/
theorem foldl_stepPlatform_error (env : RestoreEnv) (items : List Engine)
    (ln : String) (tr : List REv) (ex : Bool) (e : String) :
    items.foldl (stepPlatform env) ⟨ln, tr, ex, .error e⟩ =
      ⟨ln, tr ++ items.map (fun _ => REv.warned ln e),
       ex || !items.isEmpty, .error e⟩ := by
  induction items generalizing tr ex with
  | nil => simp
  | cons it rest ih =>
    rw [List.foldl_cons]
    have hstep : stepPlatform env ⟨ln, tr, ex, .error e⟩ it
        = ⟨ln, tr ++ [REv.warned ln e], true, .error e⟩ := rfl
    rw [hstep, ih]
    simp

/-- A fulfilled chain position whose scheduled install fails: the item is
invoked and the chain becomes rejected. -/
theorem stepPlatform_ok_fail (env : RestoreEnv) (ln : String) (tr : List REv) (ex : Bool)
    (f : Engine) (e : String) (hsch : shouldInstallPlatform env f = true)
    (hf : env.primitive (sourceOfPlatform env f) = .error e) :
    stepPlatform env ⟨ln, tr, ex, .ok ()⟩ f =
      ⟨f.name, tr ++ [REv.invoked f.name (sourceOfPlatform env f)], ex, .error e⟩ := by
  have hcond := skipCond_of_shouldInstallPlatform hsch
  unfold stepPlatform restoreCallbackPlatform
  rw [hcond]
  unfold sourceOfPlatform at hf ⊢
  simp [hf]

/-- Counterpart of `stepPlatform_ok_fail` for the plugin chain. -/
theorem stepPlugin_ok_fail (env : RestoreEnv) (ln : String) (tr : List REv) (ex : Bool)
    (f : PluginInfoR) (e : String) (hsch : shouldInstallPlugin env f = true)
    (hf : env.primitive (sourceOfPlugin env f) = .error e) :
    stepPlugin env ⟨ln, tr, ex, .ok ()⟩ f =
      ⟨f.name, tr ++ [REv.invoked f.name (sourceOfPlugin env f)], ex, .error e⟩ := by
  have hcond := skipCond_of_shouldInstallPlugin hsch
  unfold stepPlugin restoreCallbackPlugin
  rw [hcond]
  unfold sourceOfPlugin at hf ⊢
  simp [hf]

/-- A rejected plugin chain position: the rejection handler consumes the
error (warning + exit code), the item is skipped, and the chain resumes
fulfilled. -/
theorem stepPlugin_error (env : RestoreEnv) (ln : String) (tr : List REv) (ex : Bool)
    (q : PluginInfoR) (e : String) :
    stepPlugin env ⟨ln, tr, ex, .error e⟩ q =
      ⟨ln, tr ++ [REv.warned ln e], true, .ok ()⟩ := rfl

/-! ## Claim C1 -/

/-- C1 counterexample: platform restore over two scheduled platforms where
the first install fails.  The claim says both install steps are still
invoked and the caller gets a surfaced status, not a rejection; actually
`"b"` is never invoked (the rejection handler at its position consumes the
error instead of running its `restoreCallback`) and the batch rejects. -/
theorem c1_counterexample :
    (installPlatformsFold
        { existsOnDisk := fun _ => false, installAllPlatforms := true, targets := []
          validRange := fun _ => false
          primitive := fun s => if s == "a" then .error "boom" else .ok () }
        [{ name := "a", spec := none }, { name := "b", spec := none }]).trace
      = [REv.invoked "a" "a", REv.warned "a" "boom"]
  ∧ (installPlatformsFold
        { existsOnDisk := fun _ => false, installAllPlatforms := true, targets := []
          validRange := fun _ => false
          primitive := fun s => if s == "a" then .error "boom" else .ok () }
        [{ name := "a", spec := none }, { name := "b", spec := none }]).cur
      = .error "boom" := by decide

/-- C1 amended: when the install primitive for a scheduled item `f` fails
after a run of successes, the failure is consumed by the rejection handler
of the NEXT chain position (if any), which emits the warning naming `f` and
sets the failure flag — so the item right after `f` is skipped, never
invoked.  In platform restore the handler re-rejects: every later item is
skipped, one duplicate warning naming `f` is emitted per remaining
position, and the batch rejects (also when `f` is last, then without any
warning or flag).  In plugin restore the handler swallows the error:
processing resumes at the second item after `f` and the batch resolves,
while a failure of the last item rejects the batch with no warning and no
flag. -/
theorem c1_failure_isolation (env : RestoreEnv) (eP eG : String)
    (preP postP : List Engine) (fP : Engine)
    (hschP : ∀ p ∈ preP ++ fP :: postP, shouldInstallPlatform env p = true)
    (hpreP : ∀ p ∈ preP, env.primitive (sourceOfPlatform env p) = .ok ())
    (hfP : env.primitive (sourceOfPlatform env fP) = .error eP)
    (preG postG : List PluginInfoR) (fG : PluginInfoR)
    (hschG : ∀ p ∈ preG ++ fG :: postG, shouldInstallPlugin env p = true)
    (hpreG : ∀ p ∈ preG, env.primitive (sourceOfPlugin env p) = .ok ())
    (hfG : env.primitive (sourceOfPlugin env fG) = .error eG)
    (hpostG : ∀ p ∈ postG, env.primitive (sourceOfPlugin env p) = .ok ()) :
    ((installPlatformsFold env (preP ++ fP :: postP)).trace
        = preP.map (fun p => REv.invoked p.name (sourceOfPlatform env p))
          ++ [REv.invoked fP.name (sourceOfPlatform env fP)]
          ++ postP.map (fun _ => REv.warned fP.name eP)
      ∧ (installPlatformsFold env (preP ++ fP :: postP)).cur = .error eP
      ∧ (installPlatformsFold env (preP ++ fP :: postP)).exitCode1 = !postP.isEmpty)
  ∧ (postG = [] →
      (installPluginsFold env (preG ++ fG :: postG)).trace
          = preG.map (fun p => REv.invoked p.name (sourceOfPlugin env p))
            ++ [REv.invoked fG.name (sourceOfPlugin env fG)]
        ∧ (installPluginsFold env (preG ++ fG :: postG)).cur = .error eG
        ∧ (installPluginsFold env (preG ++ fG :: postG)).exitCode1 = false)
  ∧ (∀ q rest, postG = q :: rest →
      (installPluginsFold env (preG ++ fG :: postG)).trace
          = preG.map (fun p => REv.invoked p.name (sourceOfPlugin env p))
            ++ [REv.invoked fG.name (sourceOfPlugin env fG)]
            ++ [REv.warned fG.name eG]
            ++ rest.map (fun p => REv.invoked p.name (sourceOfPlugin env p))
        ∧ (installPluginsFold env (preG ++ fG :: postG)).cur = .ok ()
        ∧ (installPluginsFold env (preG ++ fG :: postG)).exitCode1 = true) := by
  have hschP' : ∀ p ∈ preP, shouldInstallPlatform env p = true :=
    fun p hp => hschP p (by simp [hp])
  have hschG' : ∀ p ∈ preG, shouldInstallPlugin env p = true :=
    fun p hp => hschG p (by simp [hp])
  refine ⟨?_, ?_, ?_⟩
  · unfold installPlatformsFold foldInit
    rw [List.foldl_append, List.foldl_cons,
      foldl_stepPlatform_ok env preP "" [] false (fun p hp _ => hpreP p hp),
      List.filter_eq_self.mpr hschP',
      stepPlatform_ok_fail env _ _ _ fP eP (hschP fP (by simp)) hfP,
      foldl_stepPlatform_error env postP _ _ _ eP]
    refine ⟨by simp, rfl, by simp⟩
  · intro hpost
    subst hpost
    unfold installPluginsFold foldInit
    rw [List.foldl_append, List.foldl_cons, List.foldl_nil,
      foldl_stepPlugin_ok env preG "" [] false (fun p hp _ => hpreG p hp),
      List.filter_eq_self.mpr hschG',
      stepPlugin_ok_fail env _ _ _ fG eG (hschG fG (by simp)) hfG]
    refine ⟨by simp, rfl, rfl⟩
  · intro q rest hpost
    subst hpost
    have hschR : ∀ p ∈ rest, shouldInstallPlugin env p = true :=
      fun p hp => hschG p (by simp [hp])
    unfold installPluginsFold foldInit
    rw [List.foldl_append, List.foldl_cons, List.foldl_cons,
      foldl_stepPlugin_ok env preG "" [] false (fun p hp _ => hpreG p hp),
      List.filter_eq_self.mpr hschG',
      stepPlugin_ok_fail env _ _ _ fG eG (hschG fG (by simp)) hfG,
      stepPlugin_error,
      foldl_stepPlugin_ok env rest _ _ _ (fun p hp _ => hpostG p (by simp [hp])),
      List.filter_eq_self.mpr hschR]
    refine ⟨by simp, rfl, rfl⟩

/-! ## Claim C9 -/

/-- C9 counterexample: two plugins, neither present on disk; the first
install fails, so the claim requires both to be invoked — but the second is
never invoked (its chain position runs the rejection handler instead). -/
theorem c9_counterexample :
    (installPluginsFold
        { existsOnDisk := fun _ => false, installAllPlatforms := true, targets := []
          validRange := fun _ => false
          primitive := fun s => if s == "a" then .error "boom" else .ok () }
        [⟨"a", none, []⟩, ⟨"b", none, []⟩]).trace
      = [REv.invoked "a" "a", REv.warned "a" "boom"]
  ∧ REv.invoked "b" "b" ∉
      (installPluginsFold
        { existsOnDisk := fun _ => false, installAllPlatforms := true, targets := []
          validRange := fun _ => false
          primitive := fun s => if s == "a" then .error "boom" else .ok () }
        [⟨"a", none, []⟩, ⟨"b", none, []⟩]).trace := by decide

/-- C9 amended: in a run where no invoked install fails, the install
primitive is invoked for exactly those declared items lacking on-disk
presence and not excluded by the explicit target filter, once each, in
declaration order; in particular, when every declared item is already
materialized on disk, both restores perform zero install invocations.
(When an install fails, the item after the failing one is skipped without
being probed or invoked — see C1.) -/
theorem c9_probe_filter (env : RestoreEnv)
    (platformItems : List Engine) (pluginItems : List PluginInfoR)
    (hP : ∀ p ∈ platformItems, shouldInstallPlatform env p = true →
      env.primitive (sourceOfPlatform env p) = .ok ())
    (hG : ∀ p ∈ pluginItems, shouldInstallPlugin env p = true →
      env.primitive (sourceOfPlugin env p) = .ok ()) :
    (installPlatformsFold env platformItems).trace
      = (platformItems.filter (shouldInstallPlatform env)).map
          (fun p => REv.invoked p.name (sourceOfPlatform env p))
  ∧ (installPluginsFold env pluginItems).trace
      = (pluginItems.filter (shouldInstallPlugin env)).map
          (fun p => REv.invoked p.name (sourceOfPlugin env p))
  ∧ ((∀ p ∈ platformItems, env.existsOnDisk p.name = true) →
      (installPlatformsFold env platformItems).trace = [])
  ∧ ((∀ p ∈ pluginItems, env.existsOnDisk p.name = true) →
      (installPluginsFold env pluginItems).trace = []) := by
  have k1 : (installPlatformsFold env platformItems).trace
      = (platformItems.filter (shouldInstallPlatform env)).map
          (fun p => REv.invoked p.name (sourceOfPlatform env p)) := by
    unfold installPlatformsFold foldInit
    rw [foldl_stepPlatform_ok env platformItems "" [] false hP]
    simp
  have k2 : (installPluginsFold env pluginItems).trace
      = (pluginItems.filter (shouldInstallPlugin env)).map
          (fun p => REv.invoked p.name (sourceOfPlugin env p)) := by
    unfold installPluginsFold foldInit
    rw [foldl_stepPlugin_ok env pluginItems "" [] false hG]
    simp
  refine ⟨k1, k2, ?_, ?_⟩
  · intro hall
    rw [k1, List.filter_eq_nil_iff.mpr ?_, List.map_nil]
    intro p hp hsch
    have := skipCond_of_shouldInstallPlatform hsch
    rw [hall p hp] at this
    simp at this
  · intro hall
    rw [k2, List.filter_eq_nil_iff.mpr ?_, List.map_nil]
    intro p hp hsch
    have := skipCond_of_shouldInstallPlugin hsch
    rw [hall p hp] at this
    exact Bool.true_eq_false.mp this

/-- Witness for C9: one platform/plugin on disk, one absent, all installs
succeed; and the all-materialized runs invoke nothing. -/
theorem c9_probe_filter_witness :
    (installPlatformsFold
        { existsOnDisk := fun s => s == "ios", installAllPlatforms := true, targets := []
          validRange := fun _ => false, primitive := fun _ => .ok () }
        [⟨"ios", none⟩, ⟨"android", none⟩]).trace
      = [REv.invoked "android" "android"]
  ∧ (installPluginsFold
        { existsOnDisk := fun s => s == "p1", installAllPlatforms := true, targets := []
          validRange := fun _ => false, primitive := fun _ => .ok () }
        [⟨"p1", none, []⟩, ⟨"p2", none, []⟩]).trace
      = [REv.invoked "p2" "p2"]
  ∧ (installPlatformsFold
        { existsOnDisk := fun _ => true, installAllPlatforms := true, targets := []
          validRange := fun _ => false, primitive := fun _ => .ok () }
        [⟨"ios", none⟩, ⟨"android", none⟩]).trace = [] := by
  obtain ⟨k1, k2, _, _⟩ := c9_probe_filter
    { existsOnDisk := fun s => s == "ios", installAllPlatforms := true, targets := []
      validRange := fun _ => false, primitive := fun _ => .ok () }
    [⟨"ios", none⟩, ⟨"android", none⟩] []
    (by decide) (by decide)
  obtain ⟨_, k2', _, _⟩ := c9_probe_filter
    { existsOnDisk := fun s => s == "p1", installAllPlatforms := true, targets := []
      validRange := fun _ => false, primitive := fun _ => .ok () }
    [] [⟨"p1", none, []⟩, ⟨"p2", none, []⟩]
    (by decide) (by decide)
  obtain ⟨_, _, k3, _⟩ := c9_probe_filter
    { existsOnDisk := fun _ => true, installAllPlatforms := true, targets := []
      validRange := fun _ => false, primitive := fun _ => .ok () }
    [⟨"ios", none⟩, ⟨"android", none⟩] []
    (by decide) (by decide)
  exact ⟨k1.trans (by decide), k2'.trans (by decide), k3 (by decide)⟩

/-- Witness for C1 at a concrete failing run: platforms and plugins
`[a, x, b, c]` with `x` failing. -/
theorem c1_failure_isolation_witness :
    (installPlatformsFold
        { existsOnDisk := fun _ => false, installAllPlatforms := true, targets := []
          validRange := fun _ => false
          primitive := fun s => if s == "x" then .error "E" else .ok () }
        [⟨"a", none⟩, ⟨"x", none⟩, ⟨"b", none⟩, ⟨"c", none⟩]).trace
      = [REv.invoked "a" "a", REv.invoked "x" "x",
         REv.warned "x" "E", REv.warned "x" "E"]
  ∧ (installPluginsFold
        { existsOnDisk := fun _ => false, installAllPlatforms := true, targets := []
          validRange := fun _ => false
          primitive := fun s => if s == "x" then .error "E" else .ok () }
        [⟨"a", none, []⟩, ⟨"x", none, []⟩, ⟨"b", none, []⟩, ⟨"c", none, []⟩]).trace
      = [REv.invoked "a" "a", REv.invoked "x" "x",
         REv.warned "x" "E", REv.invoked "c" "c"] := by
  obtain ⟨⟨p1, _, _⟩, _, hplug⟩ := c1_failure_isolation
    { existsOnDisk := fun _ => false, installAllPlatforms := true, targets := []
      validRange := fun _ => false
      primitive := fun s => if s == "x" then .error "E" else .ok () }
    "E" "E"
    [⟨"a", none⟩] [⟨"b", none⟩, ⟨"c", none⟩] ⟨"x", none⟩
    (by decide) (by decide) (by decide)
    [⟨"a", none, []⟩] [⟨"b", none, []⟩, ⟨"c", none, []⟩] ⟨"x", none, []⟩
    (by decide) (by decide) (by decide) (by decide)
  obtain ⟨g1, _, _⟩ := hplug ⟨"b", none, []⟩ [⟨"c", none, []⟩] rfl
  constructor
  · exact p1.trans (by decide)
  · exact g1.trans (by decide)

/-! ## Lemmas about platform removal -/

theorem takeWhile_append_stop {p : Char → Bool} (l r : List Char) (c : Char)
    (hl : ∀ x ∈ l, p x = true) (hc : p c = false) :
    (l ++ c :: r).takeWhile p = l := by
  induction l with
  | nil => simp [List.takeWhile_cons, hc]
  | cons x xs ih =>
    simp [List.takeWhile_cons, hl x (by simp), ih (fun y hy => hl y (by simp [hy]))]

/-- `splitAtName` is JS `split('@')[0]`: on a `name@version` target it
yields the name. -/
theorem splitAtName_append (nm v : String) (h : ∀ c ∈ nm.toList, c ≠ '@') :
    splitAtName (nm ++ "@" ++ v) = nm := by
  unfold splitAtName
  have hdata : (nm ++ "@" ++ v).toList = nm.toList ++ '@' :: v.toList := by
    simp [String.toList]
  rw [hdata, takeWhile_append_stop _ _ _ (fun x hx => by simp [h x hx]) (by simp)]
  rfl

theorem filter_ne_of_not_mem {l : List String} {n : String} (h : n ∉ l) :
    l.filter (fun x => x != n) = l := by
  refine List.filter_eq_self.mpr ?_
  intro a ha
  have : a ≠ n := fun he => h (he ▸ ha)
  simpa using this

theorem rmDirPhase_eq (targets : List String) (tr : List PEv) :
    rmDirPhase targets tr
      = tr ++ targets.flatMap (fun t => [PEv.rmDir t, PEv.rmPluginsJson t]) := by
  induction targets generalizing tr with
  | nil => simp [rmDirPhase]
  | cons t rest ih =>
    unfold rmDirPhase at ih ⊢
    rw [List.foldl_cons, ih]
    simp

theorem npmUninstallPhase_eq (env : PlatformRmEnv) (targets : List String)
    (tr : List PEv) :
    npmUninstallPhase env targets tr
      = tr ++ targets.map (fun t => PEv.npmUninstalled
          (if env.knownPlatforms.contains t then "cordova-" ++ t else t)) := by
  induction targets generalizing tr with
  | nil => simp [npmUninstallPhase]
  | cons t rest ih =>
    unfold npmUninstallPhase at ih ⊢
    rw [List.foldl_cons, ih]
    simp

/-- One iteration of the first source's `--save` loop, in closed form. -/
theorem removeSaveStepV1_eq (s : PlatformRmState) (flag : Bool) (tr : List PEv)
    (t : String) :
    removeSaveStepV1 (s, flag, tr) t =
      ({ cfgEngines := s.cfgEngines.filter (fun x => x != splitAtName t)
         pkgPlatforms := s.pkgPlatforms.filter (fun x => x != splitAtName t) },
       flag || s.pkgPlatforms.contains (splitAtName t),
       tr ++ (if s.cfgEngines.contains (splitAtName t)
              then [PEv.removedEngine (splitAtName t)] else [])
          ++ (if s.pkgPlatforms.contains (splitAtName t)
              then [PEv.pkgPlatformsSet
                (s.pkgPlatforms.filter (fun x => x != splitAtName t))] else [])) := by
  unfold removeSaveStepV1
  by_cases hc : splitAtName t ∈ s.cfgEngines <;>
    by_cases hp : splitAtName t ∈ s.pkgPlatforms <;>
      simp [hc, hp, filter_ne_of_not_mem, Bool.or_comm]

/-- The `--save` loop of the first source: sequentially filtering each
stripped name composes to one filter by all stripped names, and the only
events it emits are engine removals of stripped names and platform-list
updates. -/
theorem removeSaveFoldV1 (targets : List String) (s : PlatformRmState)
    (flag : Bool) (tr : List PEv) :
    (targets.foldl removeSaveStepV1 (s, flag, tr)).1.cfgEngines
        = s.cfgEngines.filter (fun n => !(targets.map splitAtName).contains n)
  ∧ (targets.foldl removeSaveStepV1 (s, flag, tr)).1.pkgPlatforms
        = s.pkgPlatforms.filter (fun p => !(targets.map splitAtName).contains p)
  ∧ ∃ extra, (targets.foldl removeSaveStepV1 (s, flag, tr)).2.2 = tr ++ extra
      ∧ ∀ ev ∈ extra, (∃ n ∈ targets.map splitAtName, ev = PEv.removedEngine n)
          ∨ ∃ l, ev = PEv.pkgPlatformsSet l := by
  induction targets generalizing s flag tr with
  | nil =>
    refine ⟨by simp, by simp, [], by simp, by simp⟩
  | cons t rest ih =>
    rw [List.foldl_cons, removeSaveStepV1_eq]
    obtain ⟨ih1, ih2, ex1, ihtr, ihev⟩ := ih
      { cfgEngines := s.cfgEngines.filter (fun x => x != splitAtName t)
        pkgPlatforms := s.pkgPlatforms.filter (fun x => x != splitAtName t) }
      (flag || s.pkgPlatforms.contains (splitAtName t)) _
    refine ⟨?_, ?_, ?_⟩
    · rw [ih1]
      dsimp only
      rw [List.filter_filter]
      refine List.filter_congr ?_
      intro a _
      simp [List.contains_cons, Bool.not_or, Bool.and_comm, bne,
        Bool.beq_eq_decide_eq]
    · rw [ih2]
      dsimp only
      rw [List.filter_filter]
      refine List.filter_congr ?_
      intro a _
      simp [List.contains_cons, Bool.not_or, Bool.and_comm, bne,
        Bool.beq_eq_decide_eq]
    · refine ⟨(if s.cfgEngines.contains (splitAtName t)
              then [PEv.removedEngine (splitAtName t)] else [])
          ++ (if s.pkgPlatforms.contains (splitAtName t)
              then [PEv.pkgPlatformsSet
                (s.pkgPlatforms.filter (fun x => x != splitAtName t))] else [])
          ++ ex1, ?_, ?_⟩
      · rw [ihtr]
        simp
      · intro ev hev
        rcases List.mem_append.mp hev with h01 | h1
        · rcases List.mem_append.mp h01 with h | h
          · refine Or.inl ⟨splitAtName t, by simp, ?_⟩
            simp at h
            exact h.2
          · refine Or.inr ?_
            simp at h
            exact ⟨_, h.2⟩
        · rcases ihev ev h1 with ⟨n, hn, h'⟩ | h'
          · exact Or.inl ⟨n, by simp [hn], h'⟩
          · exact Or.inr h'

/-- One iteration of the second source's engine-removal loop. -/
theorem removeEnginesV2_eq (cfgE : List String) (tr : List PEv) (n : String) :
    removeEnginesV2 (cfgE, tr) n =
      (cfgE.filter (fun x => x != n),
       tr ++ (if cfgE.contains n then [PEv.removedEngine n] else [])) := by
  unfold removeEnginesV2
  by_cases hc : n ∈ cfgE <;> simp [hc]
  rw [filter_ne_of_not_mem hc]

/-- The engine-removal loop of the second source. -/
theorem removeEnginesFoldV2 (names : List String) (cfgE : List String)
    (tr : List PEv) :
    (names.foldl removeEnginesV2 (cfgE, tr)).1
        = cfgE.filter (fun n => !names.contains n)
  ∧ ∃ extra, (names.foldl removeEnginesV2 (cfgE, tr)).2 = tr ++ extra
      ∧ ∀ ev ∈ extra, ∃ n ∈ names, ev = PEv.removedEngine n := by
  induction names generalizing cfgE tr with
  | nil => exact ⟨by simp, [], by simp, by simp⟩
  | cons n rest ih =>
    rw [List.foldl_cons, removeEnginesV2_eq]
    obtain ⟨ih1, ex1, ihtr, ihev⟩ := ih (cfgE.filter (fun x => x != n)) _
    refine ⟨?_, ?_⟩
    · rw [ih1, List.filter_filter]
      refine List.filter_congr ?_
      intro a _
      simp [List.contains_cons, Bool.not_or, Bool.and_comm, bne,
        Bool.beq_eq_decide_eq]
    · refine ⟨(if cfgE.contains n then [PEv.removedEngine n] else []) ++ ex1, ?_, ?_⟩
      · rw [ihtr]
        simp
      · intro ev hev
        rcases List.mem_append.mp hev with h | h
        · refine ⟨n, by simp, ?_⟩
          simp at h
          exact h.2
        · obtain ⟨m, hm, h'⟩ := ihev ev h
          exact ⟨m, by simp [hm], h'⟩

/-! ## Claim C10 -/

/-- C10: in both platform-removal sources, the on-disk deletion under
`platforms/` and the dependency-uninstall primitive receive the raw target
string (the uninstall with `'cordova-'` prepended exactly when the raw
string names a known platform), while the `config.xml` engine removal and
the `package.json` platform-list removal use only the version-stripped
name, the substring before `'@'`. -/
theorem c10_platform_remove_names :
    (∀ nm v : String, (∀ c ∈ nm.toList, c ≠ '@') →
      splitAtName (nm ++ "@" ++ v) = nm)
  ∧ (∀ (env : PlatformRmEnv) (s0 : PlatformRmState) (targets : List String),
      targets ≠ [] →
      ∃ s1 mid, platformRemoveV1 env s0 targets
          = .ok (s1,
              targets.flatMap (fun t => [PEv.rmDir t, PEv.rmPluginsJson t])
              ++ mid
              ++ targets.map (fun t => PEv.npmUninstalled
                  (if env.knownPlatforms.contains t then "cordova-" ++ t else t)))
        ∧ (∀ ev ∈ mid, (∃ n ∈ targets.map splitAtName, ev = PEv.removedEngine n)
            ∨ (∃ l, ev = PEv.pkgPlatformsSet l) ∨ ev = PEv.pkgSaved)
        ∧ (env.save = true →
            s1.cfgEngines = s0.cfgEngines.filter
              (fun n => !(targets.map splitAtName).contains n)
          ∧ s1.pkgPlatforms = s0.pkgPlatforms.filter
              (fun p => !(targets.map splitAtName).contains p))
        ∧ (env.save = false → s1 = s0 ∧ mid = []))
  ∧ (∀ (env : PlatformRmEnv) (s0 : PlatformRmState) (targets : List String),
      targets ≠ [] →
      ∃ s1 mid, platformRemoveV2 env s0 targets
          = .ok (s1,
              targets.flatMap (fun t => [PEv.rmDir t, PEv.rmPluginsJson t])
              ++ mid
              ++ targets.map (fun t => PEv.npmUninstalled
                  (if env.knownPlatforms.contains t then "cordova-" ++ t else t)))
        ∧ (∀ ev ∈ mid, (∃ n ∈ targets.map splitAtName, ev = PEv.removedEngine n)
            ∨ (∃ l, ev = PEv.pkgPlatformsSet l) ∨ ev = PEv.pkgSaved)
        ∧ (env.save = true →
            s1.cfgEngines = s0.cfgEngines.filter
              (fun n => !(targets.map splitAtName).contains n)
          ∧ s1.pkgPlatforms = s0.pkgPlatforms.filter
              (fun p => !(targets.map splitAtName).contains p))
        ∧ (env.save = false → s1 = s0 ∧ mid = [])) := by
  refine ⟨splitAtName_append, ?_, ?_⟩
  · intro env s0 targets ht
    have hne : targets.isEmpty = false := by
      cases targets with
      | nil => exact absurd rfl ht
      | cons a l => rfl
    unfold platformRemoveV1
    rw [hne, rmDirPhase_eq targets []]
    cases hsave : env.save with
    | false =>
      refine ⟨s0, [], ?_, by simp, by simp [hsave], fun _ => ⟨rfl, rfl⟩⟩
      simp [npmUninstallPhase_eq]
    | true =>
      obtain ⟨hc, hp, extra, htr, hev⟩ := removeSaveFoldV1 targets s0 false
        ([] ++ targets.flatMap (fun t => [PEv.rmDir t, PEv.rmPluginsJson t]))
      rcases hfold : targets.foldl removeSaveStepV1
          (s0, false, [] ++ targets.flatMap (fun t => [PEv.rmDir t, PEv.rmPluginsJson t]))
        with ⟨s1, hasUpd, tr1⟩
      rw [hfold] at hc hp htr
      dsimp only at hc hp htr
      simp only [List.nil_append] at hfold htr
      refine ⟨s1, extra ++ (if hasUpd then [PEv.pkgSaved] else []), ?_, ?_, ?_, ?_⟩
      · cases hasUpd <;> simp [hfold, npmUninstallPhase_eq, htr]
      · intro ev hevm
        rcases List.mem_append.mp hevm with h | h
        · exact (hev ev h).elim (fun h' => Or.inl h') (fun h' => Or.inr (Or.inl h'))
        · refine Or.inr (Or.inr ?_)
          cases hasUpd
          · simp at h
          · simp at h
            exact h
      · intro _
        exact ⟨hc, hp⟩
      · intro hfalse
        simp at hfalse
  · intro env s0 targets ht
    have hne : targets.isEmpty = false := by
      cases targets with
      | nil => exact absurd rfl ht
      | cons a l => rfl
    unfold platformRemoveV2
    rw [hne, rmDirPhase_eq targets []]
    cases hsave : env.save with
    | false =>
      refine ⟨s0, [], ?_, by simp, by simp [hsave], fun _ => ⟨rfl, rfl⟩⟩
      simp [npmUninstallPhase_eq]
    | true =>
      obtain ⟨hc, extra, htr, hev⟩ := removeEnginesFoldV2 (targets.map splitAtName)
        s0.cfgEngines
        (([] ++ targets.flatMap (fun t => [PEv.rmDir t, PEv.rmPluginsJson t]))
          ++ [PEv.pkgPlatformsSet (s0.pkgPlatforms.filter
                (fun p => !(targets.map splitAtName).contains p)), PEv.pkgSaved])
      rcases hfold : (targets.map splitAtName).foldl removeEnginesV2
          (s0.cfgEngines,
           ([] ++ targets.flatMap (fun t => [PEv.rmDir t, PEv.rmPluginsJson t]))
             ++ [PEv.pkgPlatformsSet (s0.pkgPlatforms.filter
                   (fun p => !(targets.map splitAtName).contains p)), PEv.pkgSaved])
        with ⟨cfgE1, tr1⟩
      rw [hfold] at hc htr
      dsimp only at hc htr
      simp only [List.nil_append] at hfold htr
      refine ⟨{ cfgEngines := cfgE1,
                pkgPlatforms := s0.pkgPlatforms.filter
                  (fun p => !(targets.map splitAtName).contains p) },
              [PEv.pkgPlatformsSet (s0.pkgPlatforms.filter
                  (fun p => !(targets.map splitAtName).contains p)), PEv.pkgSaved]
                ++ extra, ?_, ?_, ?_, ?_⟩
      · try simp at hfold htr
        simp [hfold, npmUninstallPhase_eq, htr]
      · intro ev hevm
        rcases List.mem_append.mp hevm with h | h
        · rcases by simpa using h with h' | h'
          · exact Or.inr (Or.inl ⟨_, h'⟩)
          · exact Or.inr (Or.inr h')
        · obtain ⟨n, hn, h'⟩ := hev ev h
          exact Or.inl ⟨n, hn, h'⟩
      · intro _
        exact ⟨hc, rfl⟩
      · intro hfalse
        simp at hfalse

/-- Witness for C10: the name before `'@'` of `android@12.0.0`, and both
sources run on two targets (one carrying a version suffix). -/
theorem c10_platform_remove_names_witness :
    splitAtName ("android" ++ "@" ++ "12.0.0") = "android"
  ∧ (∃ s1 mid, platformRemoveV1
        { knownPlatforms := ["android", "ios"], save := true }
        { cfgEngines := ["android", "browser"], pkgPlatforms := ["android", "browser"] }
        ["android@12.0.0", "browser"]
      = .ok (s1,
          (["android@12.0.0", "browser"] : List String).flatMap
            (fun t => [PEv.rmDir t, PEv.rmPluginsJson t])
          ++ mid
          ++ (["android@12.0.0", "browser"] : List String).map
            (fun t => PEv.npmUninstalled
              (if (["android", "ios"] : List String).contains t
               then "cordova-" ++ t else t)))
      ∧ (∀ ev ∈ mid,
          (∃ n ∈ (["android@12.0.0", "browser"] : List String).map splitAtName,
            ev = PEv.removedEngine n)
          ∨ (∃ l, ev = PEv.pkgPlatformsSet l) ∨ ev = PEv.pkgSaved))
  ∧ (∃ s1 mid, platformRemoveV2
        { knownPlatforms := ["android", "ios"], save := true }
        { cfgEngines := ["android", "browser"], pkgPlatforms := ["android", "browser"] }
        ["android@12.0.0", "browser"]
      = .ok (s1,
          (["android@12.0.0", "browser"] : List String).flatMap
            (fun t => [PEv.rmDir t, PEv.rmPluginsJson t])
          ++ mid
          ++ (["android@12.0.0", "browser"] : List String).map
            (fun t => PEv.npmUninstalled
              (if (["android", "ios"] : List String).contains t
               then "cordova-" ++ t else t)))) := by
  refine ⟨c10_platform_remove_names.1 "android" "12.0.0" (by decide), ?_, ?_⟩
  · obtain ⟨s1, mid, h1, h2, _, _⟩ := c10_platform_remove_names.2.1
      { knownPlatforms := ["android", "ios"], save := true }
      { cfgEngines := ["android", "browser"], pkgPlatforms := ["android", "browser"] }
      ["android@12.0.0", "browser"] (by decide)
    exact ⟨s1, mid, h1, h2⟩
  · obtain ⟨s1, mid, h1, _, _, _⟩ := c10_platform_remove_names.2.2
      { knownPlatforms := ["android", "ios"], save := true }
      { cfgEngines := ["android", "browser"], pkgPlatforms := ["android", "browser"] }
      ["android@12.0.0", "browser"] (by decide)
    exact ⟨s1, mid, h1⟩

/-! ## Lemmas about the reconciliation (restore) passes -/

theorem alistMem_iff {α : Type} (m : List (String × α)) (k : String) :
    alistMem m k = true ↔ k ∈ alistKeys m := by
  induction m with
  | nil => simp [alistMem, alistKeys]
  | cons p rest ih =>
    by_cases hp : p.1 = k
    · simp [alistMem, alistKeys, hp]
    · simp only [alistMem, alistKeys, List.any_cons, List.map_cons, List.mem_cons,
        Bool.or_eq_true] at ih ⊢
      simp [hp, Ne.symm hp, ih]

theorem alistKeys_cons {α : Type} (p : String × α) (l : List (String × α)) :
    alistKeys (p :: l) = p.1 :: alistKeys l := rfl

theorem alistMem_cons {α : Type} (p : String × α) (l : List (String × α)) (k : String) :
    alistMem (p :: l) k = (p.1 == k || alistMem l k) := by
  simp [alistMem]

/-- Unfolding `alistInsert` over a head cell. -/
theorem alistInsert_cons {α : Type} (p : String × α) (rest : List (String × α))
    (k : String) (v : α) :
    alistInsert (p :: rest) k v
      = if p.1 == k then (k, v) :: rest.map (fun q => if q.1 == k then (k, v) else q)
        else p :: alistInsert rest k v := by
  unfold alistInsert alistMem
  by_cases hp : p.1 = k
  · simp [List.any_cons, hp]
  · cases hm : rest.any (fun q => q.1 == k) with
    | true => simp [List.any_cons, hp, hm]
    | false => simp [List.any_cons, hp, hm]

theorem alistKeys_map_update {α : Type} (m : List (String × α)) (k : String) (v : α) :
    alistKeys (m.map (fun q => if q.1 == k then (k, v) else q)) = alistKeys m := by
  induction m with
  | nil => rfl
  | cons q rest ih =>
    by_cases hq : q.1 = k
    · simpa [alistKeys, hq] using ih
    · simpa [alistKeys, hq] using ih

theorem alistLookup_map_update_ne {α : Type} (m : List (String × α))
    (k k' : String) (v : α) (h : k ≠ k') :
    alistLookup (m.map (fun q => if q.1 == k' then (k', v) else q)) k
      = alistLookup m k := by
  induction m with
  | nil => rfl
  | cons q rest ih =>
    by_cases hq : q.1 = k'
    · simpa [alistLookup, hq, Ne.symm h] using ih
    · by_cases hqk : q.1 = k
      · simp [alistLookup, hq, hqk, h]
      · simpa [alistLookup, hq, hqk] using ih

theorem alistKeys_insert {α : Type} (m : List (String × α)) (k : String) (v : α) :
    alistKeys (alistInsert m k v)
      = if alistMem m k then alistKeys m else alistKeys m ++ [k] := by
  induction m with
  | nil => simp [alistInsert, alistMem, alistKeys]
  | cons p rest ih =>
    rw [alistInsert_cons]
    by_cases hp : p.1 = k
    · rw [if_pos (by simp [hp]), alistKeys_cons, alistKeys_cons, alistKeys_map_update,
        if_pos (by simp [alistMem_cons, hp])]
      simp [hp]
    · rw [if_neg (by simp [hp]), alistKeys_cons]
      cases hm : alistMem rest k with
      | true =>
        have ihh : alistKeys (alistInsert rest k v) = alistKeys rest := by
          rw [ih, if_pos hm]
        rw [ihh, if_pos (by simp [alistMem_cons, hp, hm]), alistKeys_cons]
      | false =>
        have ihh : alistKeys (alistInsert rest k v) = alistKeys rest ++ [k] := by
          rw [ih, if_neg (by simp [hm])]
        rw [ihh, if_neg (by simp [alistMem_cons, hp, hm]), alistKeys_cons]
        simp

theorem alistMem_insert_of_mem {α : Type} (m : List (String × α)) (k k' : String)
    (v : α) (h : alistMem m k' = true) :
    alistMem (alistInsert m k v) k' = true := by
  rw [alistMem_iff] at h ⊢
  rw [alistKeys_insert]
  by_cases hm : alistMem m k = true <;> simp [hm, h]

theorem alistMem_insert_self {α : Type} (m : List (String × α)) (k : String) (v : α) :
    alistMem (alistInsert m k v) k = true := by
  rw [alistMem_iff, alistKeys_insert]
  by_cases hm : alistMem m k = true <;> simp [hm]
  exact (alistMem_iff m k).mp hm

theorem alistLookup_insert_self {α : Type} (m : List (String × α)) (k : String) (v : α) :
    alistLookup (alistInsert m k v) k = some v := by
  induction m with
  | nil => simp [alistInsert, alistMem, alistLookup]
  | cons p rest ih =>
    rw [alistInsert_cons]
    by_cases hp : p.1 = k
    · simp [alistLookup, hp]
    · simpa [alistLookup, hp] using ih

theorem alistLookup_insert_ne {α : Type} (m : List (String × α)) (k k' : String)
    (v : α) (h : k ≠ k') :
    alistLookup (alistInsert m k' v) k = alistLookup m k := by
  induction m with
  | nil =>
    simp [alistInsert, alistMem, alistLookup, Ne.symm h]
  | cons p rest ih =>
    rw [alistInsert_cons]
    by_cases hp : p.1 = k'
    · rw [if_pos (by simp [hp])]
      have hpk : ¬p.1 = k := by rw [hp]; exact Ne.symm h
      have h1 : alistLookup ((k', v) :: rest.map
            (fun q => if q.1 == k' then (k', v) else q)) k
          = alistLookup (rest.map (fun q => if q.1 == k' then (k', v) else q)) k := by
        simp [alistLookup, Ne.symm h]
      rw [h1, alistLookup_map_update_ne rest k k' v h]
      simp [alistLookup, hpk]
    · rw [if_neg (by simp [hp])]
      by_cases hpk : p.1 = k
      · simp [alistLookup, hpk]
      · simpa [alistLookup, hpk] using ih

/-- The front-matter overlay touches only the three front-matter fields. -/
theorem applyConfig_preserves (cfg : ConfigXml) (pkg : PkgJson) :
    (applyConfigToPkgJson cfg pkg).dependencies = pkg.dependencies
  ∧ (applyConfigToPkgJson cfg pkg).devDependencies = pkg.devDependencies
  ∧ (applyConfigToPkgJson cfg pkg).cordovaPlatforms = pkg.cordovaPlatforms
  ∧ (applyConfigToPkgJson cfg pkg).cordovaPlugins = pkg.cordovaPlugins := by
  unfold applyConfigToPkgJson
  cases truthy cfg.packageName <;> cases truthy cfg.version <;>
    cases truthy cfg.name <;> simp

theorem specsMem_applyConfig (cfg : ConfigXml) (pkg : PkgJson) (k : String) :
    specsMem (applyConfigToPkgJson cfg pkg) k = specsMem pkg k := by
  obtain ⟨h1, h2, _, _⟩ := applyConfig_preserves cfg pkg
  unfold specsMem
  rw [h1, h2]

/-- One engine-migration step, platform-list component. -/
theorem migrateEngine_platforms (P0 : List String) (S0 : String → Bool)
    (pkg : PkgJson) (e : Engine) :
    (migrateEngine P0 S0 pkg e).cordovaPlatforms
      = pkg.cordovaPlatforms ++ (if P0.contains e.name then [] else [e.name]) := by
  unfold migrateEngine
  cases hc : P0.contains e.name <;>
    cases hs : truthy e.spec && !S0 (platformModuleOf e.name) <;>
      simp [hc, hs]

/-- One engine-migration step, devDependencies component. -/
theorem migrateEngine_devdeps (P0 : List String) (S0 : String → Bool)
    (pkg : PkgJson) (e : Engine) :
    (migrateEngine P0 S0 pkg e).devDependencies
      = (if truthy e.spec && !S0 (platformModuleOf e.name)
         then alistInsert pkg.devDependencies (platformModuleOf e.name) (jsOrStr e.spec "")
         else pkg.devDependencies) := by
  unfold migrateEngine
  cases hc : P0.contains e.name <;>
    cases hs : truthy e.spec && !S0 (platformModuleOf e.name) <;>
      simp [hc, hs]

/-- One engine-migration step touches nothing besides the platform list and
devDependencies. -/
theorem migrateEngine_rest (P0 : List String) (S0 : String → Bool)
    (pkg : PkgJson) (e : Engine) :
    (migrateEngine P0 S0 pkg e).dependencies = pkg.dependencies
  ∧ (migrateEngine P0 S0 pkg e).cordovaPlugins = pkg.cordovaPlugins := by
  unfold migrateEngine
  cases hc : P0.contains e.name <;>
    cases hs : truthy e.spec && !S0 (platformModuleOf e.name) <;>
      simp [hc, hs]

/-- The engine-migration fold appends exactly the names absent from the
pre-loop snapshot, in declaration order. -/
theorem migrate_platforms_eq (P0 : List String) (S0 : String → Bool)
    (engines : List Engine) (pkg : PkgJson) :
    (engines.foldl (migrateEngine P0 S0) pkg).cordovaPlatforms
      = pkg.cordovaPlatforms
        ++ (engines.filter (fun e => !P0.contains e.name)).map (fun e => e.name) := by
  induction engines generalizing pkg with
  | nil => simp
  | cons e rest ih =>
    rw [List.foldl_cons, ih, migrateEngine_platforms]
    cases hc : P0.contains e.name <;> (simp at hc; simp [List.filter_cons, hc])

theorem alistMem_insert_ne {α : Type} (m : List (String × α)) (k k' : String)
    (v : α) (h : k ≠ k') :
    alistMem (alistInsert m k' v) k = alistMem m k := by
  cases hm : alistMem m k with
  | true => rw [alistMem_insert_of_mem m k' k v hm]
  | false =>
    have hk : k ∉ alistKeys m := fun hmem => by
      rw [(alistMem_iff m k).mpr hmem] at hm
      cases hm
    have h2 : k ∉ alistKeys (alistInsert m k' v) := by
      rw [alistKeys_insert]
      by_cases hmk : alistMem m k' = true <;> simp [hmk, hk, h]
    cases hmem2 : alistMem (alistInsert m k' v) k with
    | false => rfl
    | true => exact absurd ((alistMem_iff _ _).mp hmem2) h2

/-- One plugin-migration step: no-op for ids already in the snapshot. -/
theorem migratePlugin_noop (IDs0 : List String) (S0 : String → Bool)
    (cfg : ConfigXml) (pkg : PkgJson) (id : String)
    (h : IDs0.contains id = true) :
    migratePlugin IDs0 S0 cfg pkg id = pkg := by
  unfold migratePlugin
  rw [h]
  rfl

/-- One plugin-migration step, plugin-map component. -/
theorem migratePlugin_plugins (IDs0 : List String) (S0 : String → Bool)
    (cfg : ConfigXml) (pkg : PkgJson) (id : String) :
    (migratePlugin IDs0 S0 cfg pkg id).cordovaPlugins
      = if IDs0.contains id then pkg.cordovaPlugins
        else alistInsert pkg.cordovaPlugins id (getPluginCfg cfg id).vars := by
  unfold migratePlugin
  cases hc : IDs0.contains id with
  | true => rfl
  | false =>
    dsimp only
    cases hs : truthy (getPluginCfg cfg id).spec && !S0 id <;> rfl

/-- One plugin-migration step, devDependencies component. -/
theorem migratePlugin_devdeps (IDs0 : List String) (S0 : String → Bool)
    (cfg : ConfigXml) (pkg : PkgJson) (id : String) :
    (migratePlugin IDs0 S0 cfg pkg id).devDependencies
      = if !IDs0.contains id && (truthy (getPluginCfg cfg id).spec && !S0 id)
        then alistInsert pkg.devDependencies id (jsOrStr (getPluginCfg cfg id).spec "")
        else pkg.devDependencies := by
  unfold migratePlugin
  cases hc : IDs0.contains id with
  | true => rfl
  | false =>
    dsimp only
    cases hs : truthy (getPluginCfg cfg id).spec && !S0 id <;> rfl

/-- The plugin-map keys after one step. -/
theorem migratePlugin_keys (IDs0 : List String) (S0 : String → Bool)
    (cfg : ConfigXml) (pkg : PkgJson) (id : String) :
    alistKeys (migratePlugin IDs0 S0 cfg pkg id).cordovaPlugins
      = if IDs0.contains id || alistMem pkg.cordovaPlugins id
        then alistKeys pkg.cordovaPlugins
        else alistKeys pkg.cordovaPlugins ++ [id] := by
  rw [migratePlugin_plugins]
  cases hc : IDs0.contains id with
  | true => simp
  | false =>
    rw [if_neg (by simp)]
    rw [alistKeys_insert]
    cases hm : alistMem pkg.cordovaPlugins id <;> simp [hm]

theorem migratePlugin_keys_len_le (IDs0 : List String) (S0 : String → Bool)
    (cfg : ConfigXml) (pkg : PkgJson) (id : String) :
    (alistKeys pkg.cordovaPlugins).length
      ≤ (alistKeys (migratePlugin IDs0 S0 cfg pkg id).cordovaPlugins).length := by
  rw [migratePlugin_keys]
  split <;> simp

theorem migrate_plugins_len_mono (IDs0 : List String) (S0 : String → Bool)
    (cfg : ConfigXml) (l : List String) :
    ∀ pkg : PkgJson, (alistKeys pkg.cordovaPlugins).length
      ≤ (alistKeys ((l.foldl (migratePlugin IDs0 S0 cfg) pkg)).cordovaPlugins).length := by
  induction l with
  | nil => intro pkg; simp
  | cons x rest ih =>
    intro pkg
    rw [List.foldl_cons]
    exact le_trans (migratePlugin_keys_len_le IDs0 S0 cfg pkg x) (ih _)

theorem migrate_plugins_mem_preserved (IDs0 : List String) (S0 : String → Bool)
    (cfg : ConfigXml) (l : List String) :
    ∀ (pkg : PkgJson) (k : String), alistMem pkg.cordovaPlugins k = true →
      alistMem ((l.foldl (migratePlugin IDs0 S0 cfg) pkg)).cordovaPlugins k = true := by
  induction l with
  | nil => intro pkg k h; simpa using h
  | cons x rest ih =>
    intro pkg k h
    rw [List.foldl_cons]
    refine ih _ k ?_
    rw [migratePlugin_plugins]
    by_cases hc : IDs0.contains x = true
    · rw [if_pos hc]; exact h
    · rw [if_neg hc]
      exact alistMem_insert_of_mem _ _ _ _ h

theorem migrate_plugins_mem (IDs0 : List String) (S0 : String → Bool)
    (cfg : ConfigXml) (l : List String) :
    ∀ (pkg : PkgJson) (id : String), id ∈ l → IDs0.contains id = false →
      alistMem ((l.foldl (migratePlugin IDs0 S0 cfg) pkg)).cordovaPlugins id = true := by
  induction l with
  | nil => intro pkg id h; simp at h
  | cons x rest ih =>
    intro pkg id hid h0
    rw [List.foldl_cons]
    by_cases hxe : id = x
    · subst hxe
      refine migrate_plugins_mem_preserved IDs0 S0 cfg rest _ id ?_
      rw [migratePlugin_plugins, if_neg (by simpa using h0)]
      exact alistMem_insert_self _ _ _
    · have : id ∈ rest := by
        rcases List.mem_cons.mp hid with h | h
        · exact absurd h hxe
        · exact h
      exact ih _ id this h0

theorem migrate_plugins_strict (IDs0 : List String) (S0 : String → Bool)
    (cfg : ConfigXml) (l : List String) :
    ∀ (pkg : PkgJson) (id : String), id ∈ l → IDs0.contains id = false →
      alistMem pkg.cordovaPlugins id = false →
      (alistKeys pkg.cordovaPlugins).length
        < (alistKeys ((l.foldl (migratePlugin IDs0 S0 cfg) pkg)).cordovaPlugins).length := by
  induction l with
  | nil => intro pkg id h; simp at h
  | cons x rest ih =>
    intro pkg id hid h0 hnot
    rw [List.foldl_cons]
    by_cases hxe : id = x
    · subst hxe
      have h0' : id ∉ IDs0 := by simpa using h0
      have hkeys : alistKeys (migratePlugin IDs0 S0 cfg pkg id).cordovaPlugins
          = alistKeys pkg.cordovaPlugins ++ [id] := by
        rw [migratePlugin_keys, if_neg (by simp [hnot, h0'])]
      calc (alistKeys pkg.cordovaPlugins).length
          < (alistKeys (migratePlugin IDs0 S0 cfg pkg id).cordovaPlugins).length := by
            rw [hkeys]; simp
        _ ≤ _ := migrate_plugins_len_mono IDs0 S0 cfg rest _
    · have hrest : id ∈ rest := by
        rcases List.mem_cons.mp hid with h | h
        · exact absurd h hxe
        · exact h
      have hnot' : alistMem (migratePlugin IDs0 S0 cfg pkg x).cordovaPlugins id = false := by
        rw [migratePlugin_plugins]
        by_cases hc : IDs0.contains x = true
        · rw [if_pos hc]; exact hnot
        · rw [if_neg hc, alistMem_insert_ne _ _ _ _ hxe]
          exact hnot
      calc (alistKeys pkg.cordovaPlugins).length
          ≤ (alistKeys (migratePlugin IDs0 S0 cfg pkg x).cordovaPlugins).length :=
            migratePlugin_keys_len_le IDs0 S0 cfg pkg x
        _ < _ := ih _ id hrest h0 hnot'

theorem migrate_plugins_noop (IDs0 : List String) (S0 : String → Bool)
    (cfg : ConfigXml) (l : List String)
    (h : ∀ id ∈ l, IDs0.contains id = true) :
    ∀ pkg : PkgJson, l.foldl (migratePlugin IDs0 S0 cfg) pkg = pkg := by
  induction l with
  | nil => intro pkg; rfl
  | cons x rest ih =>
    intro pkg
    rw [List.foldl_cons, migratePlugin_noop IDs0 S0 cfg pkg x (h x (by simp))]
    exact ih (fun id hid => h id (by simp [hid])) pkg

/-! ## Lookup-level characterization of the migration folds -/

/-- `Object.keys(m).includes(k)` agrees with the `k in m` test. -/
theorem keys_contains_eq_alistMem {α : Type} (m : List (String × α)) (k : String) :
    (alistKeys m).contains k = alistMem m k := by
  cases hm : alistMem m k
  · cases hc : (alistKeys m).contains k
    · rfl
    · exact absurd ((alistMem_iff m k).mpr (contains_iff_mem.mp hc)) (by simp [hm])
  · exact contains_iff_mem.mpr ((alistMem_iff m k).mp hm)

/-- A plugin-map entry holding the declared vars of its id survives the
rest of the plugin-migration fold (every later insert for the same id
writes the same declared value). -/
theorem migrate_plugins_vars_preserved (IDs0 : List String) (S0 : String → Bool)
    (cfg : ConfigXml) (l : List String) :
    ∀ (pkg : PkgJson) (id : String),
      alistLookup pkg.cordovaPlugins id = some (getPluginCfg cfg id).vars →
      alistLookup ((l.foldl (migratePlugin IDs0 S0 cfg) pkg)).cordovaPlugins id
        = some (getPluginCfg cfg id).vars := by
  induction l with
  | nil => intro pkg id h; simpa using h
  | cons x rest ih =>
    intro pkg id h
    rw [List.foldl_cons]
    refine ih _ id ?_
    rw [migratePlugin_plugins]
    by_cases hc : IDs0.contains x = true
    · rw [if_pos hc]; exact h
    · rw [if_neg hc]
      by_cases hxe : id = x
      · subst hxe; exact alistLookup_insert_self _ _ _
      · rw [alistLookup_insert_ne _ _ _ _ hxe]; exact h

/-- A declared plugin id absent from the pre-loop snapshot ends up in the
plugin map with exactly its declared vars. -/
theorem migrate_plugins_vars_set (IDs0 : List String) (S0 : String → Bool)
    (cfg : ConfigXml) (l : List String) :
    ∀ (pkg : PkgJson) (id : String), id ∈ l → IDs0.contains id = false →
      alistLookup ((l.foldl (migratePlugin IDs0 S0 cfg) pkg)).cordovaPlugins id
        = some (getPluginCfg cfg id).vars := by
  induction l with
  | nil => intro pkg id h; simp at h
  | cons x rest ih =>
    intro pkg id hid h0
    rw [List.foldl_cons]
    by_cases hxe : id = x
    · subst hxe
      refine migrate_plugins_vars_preserved IDs0 S0 cfg rest _ id ?_
      rw [migratePlugin_plugins, if_neg (by simpa using h0)]
      exact alistLookup_insert_self _ _ _
    · have hrest : id ∈ rest := by
        rcases List.mem_cons.mp hid with h | h
        · exact absurd h hxe
        · exact h
      exact ih _ id hrest h0

/-- A devDependencies entry holding the declared spec of its plugin id
survives the rest of the plugin-migration fold. -/
theorem migrate_plugins_devdeps_preserved (IDs0 : List String) (S0 : String → Bool)
    (cfg : ConfigXml) (l : List String) :
    ∀ (pkg : PkgJson) (id : String),
      alistLookup pkg.devDependencies id = some (jsOrStr (getPluginCfg cfg id).spec "") →
      alistLookup ((l.foldl (migratePlugin IDs0 S0 cfg) pkg)).devDependencies id
        = some (jsOrStr (getPluginCfg cfg id).spec "") := by
  induction l with
  | nil => intro pkg id h; simpa using h
  | cons x rest ih =>
    intro pkg id h
    rw [List.foldl_cons]
    refine ih _ id ?_
    rw [migratePlugin_devdeps]
    cases hs : !IDs0.contains x && (truthy (getPluginCfg cfg x).spec && !S0 x) with
    | false => rw [if_neg (by simp)]; exact h
    | true =>
      rw [if_pos rfl]
      by_cases hxe : id = x
      · subst hxe; exact alistLookup_insert_self _ _ _
      · rw [alistLookup_insert_ne _ _ _ _ hxe]; exact h

/-- A declared plugin id absent from the snapshot whose spec is truthy and
not already a merged dependency gets that spec recorded under its id. -/
theorem migrate_plugins_devdeps_set (IDs0 : List String) (S0 : String → Bool)
    (cfg : ConfigXml) (l : List String) :
    ∀ (pkg : PkgJson) (id : String), id ∈ l → IDs0.contains id = false →
      truthy (getPluginCfg cfg id).spec = true → S0 id = false →
      alistLookup ((l.foldl (migratePlugin IDs0 S0 cfg) pkg)).devDependencies id
        = some (jsOrStr (getPluginCfg cfg id).spec "") := by
  induction l with
  | nil => intro pkg id h; simp at h
  | cons x rest ih =>
    intro pkg id hid h0 ht hs0
    rw [List.foldl_cons]
    by_cases hxe : id = x
    · subst hxe
      refine migrate_plugins_devdeps_preserved IDs0 S0 cfg rest _ id ?_
      rw [migratePlugin_devdeps, if_pos (by rw [h0, ht, hs0]; rfl)]
      exact alistLookup_insert_self _ _ _
    · have hrest : id ∈ rest := by
        rcases List.mem_cons.mp hid with h | h
        · exact absurd h hxe
        · exact h
      exact ih _ id hrest h0 ht hs0

/-- The plugin-migration fold never deletes a devDependencies key. -/
theorem migrate_plugins_devdeps_mem (IDs0 : List String) (S0 : String → Bool)
    (cfg : ConfigXml) (l : List String) :
    ∀ (pkg : PkgJson) (k : String), alistMem pkg.devDependencies k = true →
      alistMem ((l.foldl (migratePlugin IDs0 S0 cfg) pkg)).devDependencies k = true := by
  induction l with
  | nil => intro pkg k h; simpa using h
  | cons x rest ih =>
    intro pkg k h
    rw [List.foldl_cons]
    refine ih _ k ?_
    rw [migratePlugin_devdeps]
    cases hs : !IDs0.contains x && (truthy (getPluginCfg cfg x).spec && !S0 x) with
    | false => rw [if_neg (by simp)]; exact h
    | true => rw [if_pos rfl]; exact alistMem_insert_of_mem _ _ _ _ h

/-- A devDependencies entry keyed by a platform module all of whose
declared specs agree survives the engine-migration fold. -/
theorem migrate_platforms_devdeps_preserved (P0 : List String) (S0 : String → Bool)
    (engines : List Engine) :
    ∀ (pkg : PkgJson) (m v : String),
      (∀ e' ∈ engines, platformModuleOf e'.name = m → jsOrStr e'.spec "" = v) →
      alistLookup pkg.devDependencies m = some v →
      alistLookup ((engines.foldl (migrateEngine P0 S0) pkg)).devDependencies m
        = some v := by
  induction engines with
  | nil => intro pkg m v _ h; simpa using h
  | cons e rest ih =>
    intro pkg m v hall h
    rw [List.foldl_cons]
    refine ih _ m v (fun e' he' => hall e' (List.mem_cons_of_mem e he')) ?_
    rw [migrateEngine_devdeps]
    cases hs : truthy e.spec && !S0 (platformModuleOf e.name) with
    | false => rw [if_neg (by simp)]; exact h
    | true =>
      rw [if_pos rfl]
      by_cases hme : m = platformModuleOf e.name
      · rw [hme]
        rw [alistLookup_insert_self]
        rw [hall e (List.mem_cons_self e rest) hme.symm]
      · rw [alistLookup_insert_ne _ _ _ _ hme]; exact h

/-- A declared engine whose spec is truthy and whose platform module is not
already a merged dependency gets that spec recorded under the module name,
provided every declared engine of the same module carries the same spec. -/
theorem migrate_platforms_devdeps_set (P0 : List String) (S0 : String → Bool)
    (engines : List Engine) :
    ∀ (pkg : PkgJson) (e : Engine), e ∈ engines →
      truthy e.spec = true → S0 (platformModuleOf e.name) = false →
      (∀ e' ∈ engines, platformModuleOf e'.name = platformModuleOf e.name →
        jsOrStr e'.spec "" = jsOrStr e.spec "") →
      alistLookup ((engines.foldl (migrateEngine P0 S0) pkg)).devDependencies
        (platformModuleOf e.name) = some (jsOrStr e.spec "") := by
  induction engines with
  | nil => intro pkg e h; simp at h
  | cons x rest ih =>
    intro pkg e he ht hs0 hall
    rw [List.foldl_cons]
    rcases List.mem_cons.mp he with rfl | hrest
    · refine migrate_platforms_devdeps_preserved P0 S0 rest _ _ _
        (fun e' he' hm => hall e' (List.mem_cons_of_mem e he') hm) ?_
      rw [migrateEngine_devdeps, if_pos (by rw [ht, hs0]; rfl)]
      exact alistLookup_insert_self _ _ _
    · exact ih _ e hrest ht hs0 (fun e' he' hm => hall e' (List.mem_cons_of_mem x he') hm)

/-- The engine-migration fold never deletes a devDependencies key. -/
theorem migrate_platforms_devdeps_mem (P0 : List String) (S0 : String → Bool)
    (engines : List Engine) :
    ∀ (pkg : PkgJson) (k : String), alistMem pkg.devDependencies k = true →
      alistMem ((engines.foldl (migrateEngine P0 S0) pkg)).devDependencies k = true := by
  induction engines with
  | nil => intro pkg k h; simpa using h
  | cons e rest ih =>
    intro pkg k h
    rw [List.foldl_cons]
    refine ih _ k ?_
    rw [migrateEngine_devdeps]
    cases hs : truthy e.spec && !S0 (platformModuleOf e.name) with
    | false => rw [if_neg (by simp)]; exact h
    | true => rw [if_pos rfl]; exact alistMem_insert_of_mem _ _ _ _ h

/-! ## The save decision of `preparePlatformRestore` / `preparePluginRestore` -/

/-- The migrated manifest of platform restore is the engine fold over the
front-matter overlay. -/
theorem platformRestore_pkg (cfg : ConfigXml) (pkg : PkgJson) :
    (preparePlatformRestore cfg pkg).pkg
      = cfg.engines.foldl
          (migrateEngine (applyConfigToPkgJson cfg pkg).cordovaPlatforms
            (fun k => specsMem (applyConfigToPkgJson cfg pkg) k))
          (applyConfigToPkgJson cfg pkg) := rfl

/-- The migrated manifest of plugin restore is the plugin fold over the
declared plugin ids. -/
theorem pluginRestore_pkg (cfg : ConfigXml) (pkg : PkgJson) :
    (preparePluginRestore cfg pkg).pkg
      = (cfg.plugins.map (fun p => p.id)).foldl
          (migratePlugin (alistKeys pkg.cordovaPlugins)
            (fun k => specsMem pkg k) cfg) pkg := rfl

/-- The merged platform list: the manifest list followed by the declared
engine names that were missing from it, in declaration order. -/
theorem platformRestore_platforms (cfg : ConfigXml) (pkg : PkgJson) :
    (preparePlatformRestore cfg pkg).pkg.cordovaPlatforms
      = pkg.cordovaPlatforms
        ++ (cfg.engines.filter
            (fun e => !pkg.cordovaPlatforms.contains e.name)).map (fun e => e.name) := by
  obtain ⟨-, -, hplat, -⟩ := applyConfig_preserves cfg pkg
  rw [platformRestore_pkg, migrate_platforms_eq, hplat]

/-- The platform save decision compares the merged list length with the
manifest list read before migration. -/
theorem platformSaved_eq (cfg : ConfigXml) (pkg : PkgJson) :
    (preparePlatformRestore cfg pkg).saved
      = ((preparePlatformRestore cfg pkg).pkg.cordovaPlatforms.length
          != pkg.cordovaPlatforms.length) := by
  obtain ⟨-, -, hplat, -⟩ := applyConfig_preserves cfg pkg
  unfold preparePlatformRestore
  dsimp only
  rw [hplat]

/-- The plugin save decision compares the merged key count with the key
count read before migration. -/
theorem pluginSaved_eq (cfg : ConfigXml) (pkg : PkgJson) :
    (preparePluginRestore cfg pkg).saved
      = ((alistKeys (preparePluginRestore cfg pkg).pkg.cordovaPlugins).length
          != (alistKeys pkg.cordovaPlugins).length) := rfl

/-- Platform restore saves the manifest exactly when some declared engine
name is missing from the manifest platform list. -/
theorem platformSaved_iff (cfg : ConfigXml) (pkg : PkgJson) :
    (preparePlatformRestore cfg pkg).saved = true
      ↔ ∃ e ∈ cfg.engines, e.name ∉ pkg.cordovaPlatforms := by
  rw [platformSaved_eq, platformRestore_platforms]
  simp [bne_iff_ne, List.filter_eq_nil_iff]

/-- Plugin restore saves the manifest exactly when some declared plugin id
is missing from the manifest plugin map. -/
theorem pluginSaved_iff (cfg : ConfigXml) (pkg : PkgJson) :
    (preparePluginRestore cfg pkg).saved = true
      ↔ ∃ id ∈ cfg.plugins.map (fun p => p.id),
          alistMem pkg.cordovaPlugins id = false := by
  rw [pluginSaved_eq, pluginRestore_pkg]
  constructor
  · intro h
    by_contra hno
    push_neg at hno
    have hall : ∀ id ∈ cfg.plugins.map (fun p => p.id),
        (alistKeys pkg.cordovaPlugins).contains id = true := by
      intro id hid
      rw [keys_contains_eq_alistMem]
      cases hmm : alistMem pkg.cordovaPlugins id
      · exact absurd hmm (hno id hid)
      · rfl
    rw [migrate_plugins_noop _ _ _ _ hall pkg] at h
    simp at h
  · rintro ⟨id, hid, hmem⟩
    have h0 : (alistKeys pkg.cordovaPlugins).contains id = false := by
      rw [keys_contains_eq_alistMem]; exact hmem
    have hlt := migrate_plugins_strict (alistKeys pkg.cordovaPlugins)
      (fun k => specsMem pkg k) cfg (cfg.plugins.map (fun p => p.id)) pkg id hid h0 hmem
    simp only [bne_iff_ne, ne_eq]
    omega

/-- Immediately re-running platform reconciliation on its own output never
saves again. -/
theorem platformSaved_idempotent (cfg : ConfigXml) (pkg : PkgJson) :
    (preparePlatformRestore cfg ((preparePlatformRestore cfg pkg).pkg)).saved = false := by
  cases hs : (preparePlatformRestore cfg ((preparePlatformRestore cfg pkg).pkg)).saved
  · rfl
  · exfalso
    obtain ⟨e, he, hnot⟩ := (platformSaved_iff cfg _).mp hs
    refine hnot ?_
    rw [platformRestore_platforms]
    by_cases hin : e.name ∈ pkg.cordovaPlatforms
    · exact List.mem_append.mpr (Or.inl hin)
    · refine List.mem_append.mpr (Or.inr ?_)
      refine List.mem_map.mpr ⟨e, List.mem_filter.mpr ⟨he, ?_⟩, rfl⟩
      simp [hin]

/-- Immediately re-running plugin reconciliation on its own output never
saves again. -/
theorem pluginSaved_idempotent (cfg : ConfigXml) (pkg : PkgJson) :
    (preparePluginRestore cfg ((preparePluginRestore cfg pkg).pkg)).saved = false := by
  cases hs : (preparePluginRestore cfg ((preparePluginRestore cfg pkg).pkg)).saved
  · rfl
  · exfalso
    obtain ⟨id, hid, hnot⟩ := (pluginSaved_iff cfg _).mp hs
    rw [pluginRestore_pkg] at hnot
    by_cases hin : alistMem pkg.cordovaPlugins id = true
    · rw [migrate_plugins_mem_preserved _ _ _ _ pkg id hin] at hnot
      cases hnot
    · have h0 : (alistKeys pkg.cordovaPlugins).contains id = false := by
        rw [keys_contains_eq_alistMem]
        cases hmm : alistMem pkg.cordovaPlugins id
        · rfl
        · exact absurd hmm hin
      rw [migrate_plugins_mem _ _ _ _ pkg id hid h0] at hnot
      cases hnot

/-- C4: in restore, the manifest is saved exactly when the post-migration
merged list length differs from the pre-migration list read in step 1
(platform-array length for platforms, plugin-key count for plugins); the
save flag is set exactly when the run introduced new items, and re-running
the same reconciliation immediately on its own output performs zero
additional saves, for both platform and plugin restore. -/
theorem c4_save_exactly_on_growth (cfg : ConfigXml) (pkg : PkgJson) :
    ((preparePlatformRestore cfg pkg).saved
        = ((preparePlatformRestore cfg pkg).pkg.cordovaPlatforms.length
            != pkg.cordovaPlatforms.length))
  ∧ ((preparePlatformRestore cfg pkg).saved = true
        ↔ ∃ e ∈ cfg.engines, e.name ∉ pkg.cordovaPlatforms)
  ∧ ((preparePlatformRestore cfg ((preparePlatformRestore cfg pkg).pkg)).saved = false)
  ∧ ((preparePluginRestore cfg pkg).saved
        = ((alistKeys (preparePluginRestore cfg pkg).pkg.cordovaPlugins).length
            != (alistKeys pkg.cordovaPlugins).length))
  ∧ ((preparePluginRestore cfg pkg).saved = true
        ↔ ∃ id ∈ cfg.plugins.map (fun p => p.id),
            alistMem pkg.cordovaPlugins id = false)
  ∧ ((preparePluginRestore cfg ((preparePluginRestore cfg pkg).pkg)).saved = false) :=
  ⟨platformSaved_eq cfg pkg, platformSaved_iff cfg pkg, platformSaved_idempotent cfg pkg,
   pluginSaved_eq cfg pkg, pluginSaved_iff cfg pkg, pluginSaved_idempotent cfg pkg⟩

/-! ## C3: directionality of the reconciliation pass -/

/-- A descriptor declaring one engine and one plugin that the manifest
lacks. -/
def c3cfg : ConfigXml :=
  { packageName := none, version := none, name := none
    engines := [{ name := "ios", spec := some "^7.0.0" }]
    plugins := [{ id := "cordova-plugin-camera", spec := some "^5.0.0"
                  vars := [("K", "V")] }] }

/-- A manifest with no declared platforms or plugins. -/
def c3pkg : PkgJson :=
  { name := none, version := none, displayName := none
    dependencies := [], devDependencies := []
    cordovaPlatforms := [], cordovaPlugins := [] }

/-- A restore environment where everything is already on disk. -/
def c3env : RestoreEnv :=
  { existsOnDisk := fun _ => true, installAllPlatforms := true, targets := []
    validRange := fun _ => false, primitive := fun _ => .ok () }

/-- C3 counterexample: a platform present only in the manifest
(`package.json`) is never migrated back into the descriptor (`config.xml`):
after both restore passes the returned descriptor still declares no
engines at all, so the two stores do not both contain the item. -/
theorem c3_counterexample :
    (let cfg : ConfigXml :=
      { packageName := none, version := none, name := none
        engines := [], plugins := [] }
     let pkg : PkgJson :=
      { name := none, version := none, displayName := none
        dependencies := [], devDependencies := []
        cordovaPlatforms := ["ios"], cordovaPlugins := [] }
     "ios" ∈ pkg.cordovaPlatforms
       ∧ (installPlatformsFromConfigXML c3env cfg pkg).1.engines = []
       ∧ (installPluginsFromConfigXML c3env cfg pkg).1.engines = []) := by
  exact ⟨List.mem_cons_self _ _, rfl, rfl⟩

/-- C3 (amended): reconciliation is one-directional.  Both restore passes
return the descriptor unchanged, so an item present only in the manifest
stays absent from the descriptor; in the forward direction, a declared
engine missing from the manifest platform list is appended to it, its
truthy spec is recorded in devDependencies under the platform module name
(when not already a merged dependency, and with all same-module declared
specs agreeing), a declared plugin id missing from the manifest plugin map
is added with exactly its declared variables, its truthy spec is recorded
in devDependencies under the id (when not already a merged dependency),
and no manifest platform entry, plugin key or devDependencies key is ever
deleted. -/
theorem c3_forward_only_reconciliation (cfg : ConfigXml) (pkg : PkgJson)
    (env : RestoreEnv) (e : Engine) (p : CfgPlugin)
    (he : e ∈ cfg.engines) (hep : e.name ∉ pkg.cordovaPlatforms)
    (hspec : ∀ e' ∈ cfg.engines,
      platformModuleOf e'.name = platformModuleOf e.name →
      jsOrStr e'.spec "" = jsOrStr e.spec "")
    (hp : p ∈ cfg.plugins) (hfirst : getPluginCfg cfg p.id = p)
    (hpp : alistMem pkg.cordovaPlugins p.id = false) :
    ((installPlatformsFromConfigXML env cfg pkg).1 = cfg
      ∧ (installPluginsFromConfigXML env cfg pkg).1 = cfg)
    ∧ e.name ∈ (preparePlatformRestore cfg pkg).pkg.cordovaPlatforms
    ∧ (truthy e.spec = true → specsMem pkg (platformModuleOf e.name) = false →
        alistLookup (preparePlatformRestore cfg pkg).pkg.devDependencies
          (platformModuleOf e.name) = some (jsOrStr e.spec ""))
    ∧ alistLookup (preparePluginRestore cfg pkg).pkg.cordovaPlugins p.id = some p.vars
    ∧ (truthy p.spec = true → specsMem pkg p.id = false →
        alistLookup (preparePluginRestore cfg pkg).pkg.devDependencies p.id
          = some (jsOrStr p.spec ""))
    ∧ (∀ x ∈ pkg.cordovaPlatforms,
        x ∈ (preparePlatformRestore cfg pkg).pkg.cordovaPlatforms)
    ∧ (∀ k, alistMem pkg.cordovaPlugins k = true →
        alistMem (preparePluginRestore cfg pkg).pkg.cordovaPlugins k = true)
    ∧ (∀ k, alistMem pkg.devDependencies k = true →
        alistMem (preparePlatformRestore cfg pkg).pkg.devDependencies k = true
        ∧ alistMem (preparePluginRestore cfg pkg).pkg.devDependencies k = true) := by
  obtain ⟨hdep, hdev, hplat, hplug⟩ := applyConfig_preserves cfg pkg
  have hid0 : (alistKeys pkg.cordovaPlugins).contains p.id = false := by
    rw [keys_contains_eq_alistMem]; exact hpp
  have hpmem : p.id ∈ cfg.plugins.map (fun q => q.id) := List.mem_map.mpr ⟨p, hp, rfl⟩
  refine ⟨⟨rfl, rfl⟩, ?_, ?_, ?_, ?_, ?_, ?_, ?_⟩
  · rw [platformRestore_platforms]
    refine List.mem_append.mpr (Or.inr ?_)
    exact List.mem_map.mpr ⟨e, List.mem_filter.mpr ⟨he, by simp [hep]⟩, rfl⟩
  · intro ht hs
    rw [platformRestore_pkg]
    refine migrate_platforms_devdeps_set _ _ cfg.engines _ e he ht ?_ hspec
    rw [specsMem_applyConfig]; exact hs
  · rw [pluginRestore_pkg]
    have := migrate_plugins_vars_set (alistKeys pkg.cordovaPlugins)
      (fun k => specsMem pkg k) cfg (cfg.plugins.map (fun q => q.id)) pkg p.id hpmem hid0
    rw [hfirst] at this
    exact this
  · intro ht hs
    rw [pluginRestore_pkg]
    have := migrate_plugins_devdeps_set (alistKeys pkg.cordovaPlugins)
      (fun k => specsMem pkg k) cfg (cfg.plugins.map (fun q => q.id)) pkg p.id hpmem hid0
      (by rw [hfirst]; exact ht) hs
    rw [hfirst] at this
    exact this
  · intro x hx
    rw [platformRestore_platforms]
    exact List.mem_append.mpr (Or.inl hx)
  · intro k hk
    rw [pluginRestore_pkg]
    exact migrate_plugins_mem_preserved _ _ _ _ pkg k hk
  · intro k hk
    constructor
    · rw [platformRestore_pkg]
      refine migrate_platforms_devdeps_mem _ _ cfg.engines _ k ?_
      rw [hdev]
      exact hk
    · rw [pluginRestore_pkg]
      exact migrate_plugins_devdeps_mem _ _ _ _ pkg k hk

/-- Concrete instantiation of the amended C3 theorem: the descriptor
`c3cfg` declares engine `ios@^7.0.0` and plugin
`cordova-plugin-camera@^5.0.0` with one variable, the manifest `c3pkg` is
empty; after reconciliation the descriptor is unchanged while the manifest
gained the platform, both specs and the variables. -/
theorem c3_forward_only_reconciliation_witness :
    ((installPlatformsFromConfigXML c3env c3cfg c3pkg).1 = c3cfg
      ∧ "ios" ∈ (preparePlatformRestore c3cfg c3pkg).pkg.cordovaPlatforms
      ∧ alistLookup (preparePlatformRestore c3cfg c3pkg).pkg.devDependencies
          "cordova-ios" = some "^7.0.0"
      ∧ alistLookup (preparePluginRestore c3cfg c3pkg).pkg.cordovaPlugins
          "cordova-plugin-camera" = some [("K", "V")]
      ∧ alistLookup (preparePluginRestore c3cfg c3pkg).pkg.devDependencies
          "cordova-plugin-camera" = some "^5.0.0") := by
  obtain ⟨⟨hcfg1, hcfg2⟩, hplat, hdev, hvars, hpdev, hkeep1, hkeep2, hkeep3⟩ :=
    c3_forward_only_reconciliation c3cfg c3pkg c3env
      { name := "ios", spec := some "^7.0.0" }
      { id := "cordova-plugin-camera", spec := some "^5.0.0", vars := [("K", "V")] }
      (by decide) (by decide) (by decide) (by decide) (by decide) (by decide)
  have hm : platformModuleOf "ios" = "cordova-ios" := by decide
  refine ⟨hcfg1, hplat, ?_, hvars, ?_⟩
  · have h := hdev (by decide) (by decide)
    rw [hm] at h
    exact h
  · exact hpdev (by decide) (by decide)

end Cordova
